import Mathlib

/-!
Verification of the mesh-router-agent core against its specification.

Node.js `Buffer` values are modelled as lists of natural numbers (byte
values); JavaScript strings are modelled as lists of characters.
Out-of-range byte reads are modelled as reading 0.
-/

namespace StrUtil

/-- Array.prototype.join(':') / the separator-joining of String.split:
concatenate the given pieces with a single ':' between consecutive
pieces. -/
def joinColon : List (List Char) → List Char
  | [] => []
  | [g] => g
  | g :: g2 :: gs => g ++ ':' :: joinColon (g2 :: gs)

end StrUtil

namespace StunClient

/-- Buffer.readUInt8: single byte read. -/
def readUInt8 (b : List Nat) (i : Nat) : Nat := b.getD i 0

/-- Buffer.readUInt16BE: big-endian 16-bit read. -/
def readUInt16BE (b : List Nat) (i : Nat) : Nat :=
  b.getD i 0 * 256 + b.getD (i + 1) 0

/-- Buffer.readUInt32BE: big-endian 32-bit read. -/
def readUInt32BE (b : List Nat) (i : Nat) : Nat :=
  b.getD i 0 * 16777216 + b.getD (i + 1) 0 * 65536 +
    b.getD (i + 2) 0 * 256 + b.getD (i + 3) 0

/-- Buffer.slice start end (clamped to the buffer length, as in Node). -/
def bufSlice (b : List Nat) (s e : Nat) : List Nat := (b.drop s).take (e - s)

def STUN_BINDING_REQUEST : Nat := 0x0001

def STUN_BINDING_RESPONSE : Nat := 0x0101

def STUN_MAGIC_COOKIE : Nat := 0x2112A442

def STUN_ATTR_MAPPED_ADDRESS : Nat := 0x0001

def STUN_ATTR_XOR_MAPPED_ADDRESS : Nat := 0x0020

/-- The digit characters produced by JavaScript Number.prototype.toString:
0-9 then lowercase a-f. -/
def digitChar (n : Nat) : Char :=
  if n < 10 then Char.ofNat (48 + n) else Char.ofNat (87 + n)

/-- Digit accumulator for Number.prototype.toString(16); the fuel argument
only bounds the recursion depth (n itself always suffices). -/
def toHexAux : Nat → Nat → List Char → List Char
  | 0, _, ds => ds
  | fuel + 1, n, ds =>
    if n < 16 then digitChar n :: ds
    else toHexAux fuel (n / 16) (digitChar (n % 16) :: ds)

/-- Number.prototype.toString(16): lowercase hex, no leading zeros. -/
def toHexString (n : Nat) : List Char := toHexAux (n + 1) n []

/-- Digit accumulator for Number.prototype.toString() in base 10. -/
def toDecAux : Nat → Nat → List Char → List Char
  | 0, _, ds => ds
  | fuel + 1, n, ds =>
    if n < 10 then digitChar n :: ds
    else toDecAux fuel (n / 10) (digitChar (n % 10) :: ds)

/-- Number.prototype.toString() on a natural number: decimal digits. -/
def toDecString (n : Nat) : List Char := toDecAux (n + 1) n []

/-- formatIpv6 from StunClient.ts: read the 16 bytes as eight big-endian
16-bit groups, print each in hex, and join with single colons (full form,
no :: compression). -/
def formatIpv6 (bytes : List Nat) : List Char :=
  StrUtil.joinColon ((List.range 8).map (fun i => toHexString (readUInt16BE bytes (2 * i))))

/-- The template string `ipBytes[0].ipBytes[1].ipBytes[2].ipBytes[3]`
used for IPv4 results. -/
def formatIpv4 (b : List Nat) : List Char :=
  toDecString (b.getD 0 0) ++ '.' :: (toDecString (b.getD 1 0) ++
    '.' :: (toDecString (b.getD 2 0) ++ '.' :: toDecString (b.getD 3 0)))

structure ParsedAddress where
  ip : List Char
  port : Nat
  family : Nat
deriving Repr, DecidableEq

/-- The attribute-walking while-loop of parseBindingResponse: starting at
`offset`, read the 2-byte type and 2-byte length, decode an
XOR-MAPPED-ADDRESS or MAPPED-ADDRESS attribute, otherwise advance to the
next 4-byte aligned attribute. -/
def parseAttrs (response tid : List Nat) (endOffset : Nat) (offset : Nat) :
    Option ParsedAddress :=
  if _h : offset < endOffset ∧ offset + 4 ≤ response.length then
    let attrType := readUInt16BE response offset
    let attrLength := readUInt16BE response (offset + 2)
    let attrValue := bufSlice response (offset + 4) (offset + 4 + attrLength)
    let next := fun (_ : Unit) => parseAttrs response tid endOffset
      (offset + 4 + attrLength + (if attrLength % 4 = 0 then 0 else 4 - attrLength % 4))
    if attrType = STUN_ATTR_XOR_MAPPED_ADDRESS then
      let family := readUInt8 attrValue 1
      let xorPort := readUInt16BE attrValue 2
      let port := xorPort ^^^ (STUN_MAGIC_COOKIE >>> 16)
      if family = 0x01 ∧ 8 ≤ attrLength then
        let xorIpBytes := bufSlice attrValue 4 8
        let magicCookieBytes := [0x21, 0x12, 0xA4, 0x42]
        let ipBytes := (List.range 4).map
          (fun i => (xorIpBytes.getD i 0 ^^^ magicCookieBytes.getD i 0) % 256)
        some ⟨formatIpv4 ipBytes, port, 4⟩
      else if family = 0x02 ∧ 20 ≤ attrLength then
        let xorKey := [0x21, 0x12, 0xA4, 0x42] ++ (tid ++ List.replicate 12 0).take 12
        let xorIpBytes := bufSlice attrValue 4 20
        let ipBytes := (List.range 16).map
          (fun i => (xorIpBytes.getD i 0 ^^^ xorKey.getD i 0) % 256)
        some ⟨formatIpv6 ipBytes, port, 6⟩
      else next ()
    else if attrType = STUN_ATTR_MAPPED_ADDRESS then
      let family := readUInt8 attrValue 1
      let port := readUInt16BE attrValue 2
      if family = 0x01 ∧ 8 ≤ attrLength then
        some ⟨formatIpv4 (bufSlice attrValue 4 8), port, 4⟩
      else if family = 0x02 ∧ 20 ≤ attrLength then
        some ⟨formatIpv6 (bufSlice attrValue 4 20), port, 6⟩
      else next ()
    else next ()
  else none
termination_by endOffset - offset
decreasing_by all_goals (simp_wf; omega)

/-- parseBindingResponse from StunClient.ts: reject buffers shorter than
20 bytes, a wrong message type, or a wrong magic cookie, then walk the
attribute list for messageLength bytes starting at byte 20. -/
def parseBindingResponse (response tid : List Nat) : Option ParsedAddress :=
  if response.length < 20 then none
  else if readUInt16BE response 0 ≠ STUN_BINDING_RESPONSE then none
  else if readUInt32BE response 4 ≠ STUN_MAGIC_COOKIE then none
  else parseAttrs response tid (20 + readUInt16BE response 2) 20

/-- Synthetic 32-byte STUN binding response holding one XOR-MAPPED-ADDRESS
attribute for the IPv4 address a.b.c.d and port p: the attribute bytes carry
the port XORed with the upper 16 bits of the magic cookie and the address
bytes XORed with the 4 magic-cookie bytes. -/
def mkXorV4Response (a b c d p : Nat) (tid : List Nat) : List Nat :=
  [0x01, 0x01, 0x00, 0x0C, 0x21, 0x12, 0xA4, 0x42] ++ tid ++
  [0x00, 0x20, 0x00, 0x08, 0x00, 0x01, (p ^^^ 0x2112) / 256, (p ^^^ 0x2112) % 256,
   a ^^^ 0x21, b ^^^ 0x12, c ^^^ 0xA4, d ^^^ 0x42]

/-- Synthetic 44-byte STUN binding response holding one XOR-MAPPED-ADDRESS
attribute for a 16-byte IPv6 address and port p: the 16 address bytes are
XORed with magic-cookie ++ transaction-id. -/
def mkXorV6Response (ip : List Nat) (p : Nat) (tid : List Nat) : List Nat :=
  [0x01, 0x01, 0x00, 0x18, 0x21, 0x12, 0xA4, 0x42] ++ tid ++
  [0x00, 0x20, 0x00, 0x14, 0x00, 0x02, (p ^^^ 0x2112) / 256, (p ^^^ 0x2112) % 256] ++
  (List.range 16).map (fun i => ip.getD i 0 ^^^ ([0x21, 0x12, 0xA4, 0x42] ++ tid).getD i 0)

end StunClient

namespace IpValidation

open StrUtil

/-- The character class [0-9a-fA-F]. -/
def isHexDigit (c : Char) : Bool :=
  ('0' ≤ c && c ≤ '9') || ('a' ≤ c && c ≤ 'f') || ('A' ≤ c && c ≤ 'F')

/-- The character class [0-9a-fA-F:]. -/
def isIpv6Char (c : Char) : Bool := isHexDigit c || c == ':'

/-- The character class [0-9a-fA-F:.]. -/
def isIpv6DotChar (c : Char) : Bool := isHexDigit c || c == ':' || c == '.'

/-- The regex test /^[0-9a-fA-F:]+$/.test(ip). -/
def testCharset1 (s : List Char) : Bool := !s.isEmpty && s.all isIpv6Char

/-- The regex test /^[0-9a-fA-F:.]+$/.test(ip). -/
def testCharset2 (s : List Char) : Bool := !s.isEmpty && s.all isIpv6DotChar

/-- (ip.match(/::/g) || []).length: the number of non-overlapping
occurrences of "::" found scanning left to right. -/
def countDC : List Char → Nat
  | [] => 0
  | [_] => 0
  | a :: b :: rest => if a = ':' ∧ b = ':' then countDC rest + 1 else countDC (b :: rest)

/-- ip.includes('::'). -/
def hasDC : List Char → Bool
  | [] => false
  | [_] => false
  | a :: b :: rest => (a == ':' && b == ':') || hasDC (b :: rest)

/-- The two halves of ip around the first occurrence of "::"; this is
parts[0] and parts[1] of ip.split('::') whenever the preceding
countDC ≤ 1 guard holds (then there is no second occurrence, so the JS
split has at most these two parts). When "::" does not occur the result
is (ip, ""), matching parts[1] === undefined being falsy downstream. -/
def splitFirstDC : List Char → List Char × List Char
  | [] => ([], [])
  | [c] => ([c], [])
  | a :: b :: rest =>
    if a = ':' ∧ b = ':' then ([], rest)
    else ((a :: (splitFirstDC (b :: rest)).1), (splitFirstDC (b :: rest)).2)

/-- String.prototype.split(':'). -/
def splitColon : List Char → List (List Char)
  | [] => [[]]
  | c :: rest =>
    if c = ':' then [] :: splitColon rest
    else (c :: (splitColon rest).headD []) :: (splitColon rest).tail

/-- The regex test /^[0-9a-fA-F]{1,4}$/.test(group). -/
def isHexGroup (g : List Char) : Bool :=
  !g.isEmpty && decide (g.length ≤ 4) && g.all isHexDigit

/-- isValidIPv6 from ip-registrar.spec.ts: charset check, at most one "::"
match, and either a compressed form with at most 7 explicit groups each
empty or 1-4 hex digits, or exactly 8 groups of 1-4 hex digits. -/
def isValidIPv6 (ip : List Char) : Bool :=
  if !testCharset1 ip && !testCharset2 ip then false
  else if 1 < countDC ip then false
  else if hasDC ip then
    let left := if (splitFirstDC ip).1.isEmpty then [] else splitColon (splitFirstDC ip).1
    let right := if (splitFirstDC ip).2.isEmpty then [] else splitColon (splitFirstDC ip).2
    if 7 < left.length + right.length then false
    else (left ++ right).all (fun g => g.isEmpty || isHexGroup g)
  else
    if (splitColon ip).length ≠ 8 then false
    else (splitColon ip).all isHexGroup

end IpValidation

namespace EnvConfig

/-- The two distinguishable failures thrown by parseProvider: the
"Invalid PROVIDER format" error and the "backend_url must start with
http:// or https://" error. -/
inductive ProviderError where
  | invalidFormat
  | badScheme
deriving Repr, DecidableEq

structure ProviderConfig where
  backendUrl : List Char
  userId : List Char
  signature : List Char
deriving Repr, DecidableEq

/-- String.prototype.split(','). -/
def splitComma : List Char → List (List Char)
  | [] => [[]]
  | c :: rest =>
    if c = ',' then [] :: splitComma rest
    else (c :: (splitComma rest).headD []) :: (splitComma rest).tail

/-- parseProvider from EnvConfig.ts: destructure the comma-split into the
first three parts (a missing part, like an empty one, is falsy and maps to
the empty string here), reject if any is falsy, reject if the first does
not start with "http", and otherwise return the three parts unmodified. -/
def parseProvider (s : List Char) : Except ProviderError ProviderConfig :=
  let parts := splitComma s
  let backendUrl := parts.getD 0 []
  let userId := parts.getD 1 []
  let signature := parts.getD 2 []
  if backendUrl.isEmpty || userId.isEmpty || signature.isEmpty then
    .error .invalidFormat
  else if !(['h', 't', 't', 'p'].isPrefixOf backendUrl) then
    .error .badScheme
  else
    .ok ⟨backendUrl, userId, signature⟩

end EnvConfig

namespace StunClient

structure StunServer where
  host : List Char
  port : Nat
  family : Nat
deriving Repr, DecidableEq

/-- The fixed ordered STUN server list: five IPv4 servers first, then
three IPv6 fallbacks. -/
def STUN_SERVERS : List StunServer :=
  [⟨['s', 't', 'u', 'n', '.', 'l', '.', 'g', 'o', 'o', 'g', 'l', 'e', '.', 'c', 'o', 'm'],
    19302, 4⟩,
   ⟨['s', 't', 'u', 'n', '1', '.', 'l', '.', 'g', 'o', 'o', 'g', 'l', 'e', '.', 'c', 'o', 'm'],
    19302, 4⟩,
   ⟨['s', 't', 'u', 'n', '2', '.', 'l', '.', 'g', 'o', 'o', 'g', 'l', 'e', '.', 'c', 'o', 'm'],
    19302, 4⟩,
   ⟨['s', 't', 'u', 'n', '.', 'c', 'l', 'o', 'u', 'd', 'f', 'l', 'a', 'r', 'e', '.', 'c', 'o', 'm'],
    3478, 4⟩,
   ⟨['s', 't', 'u', 'n', '.', 's', 't', 'u', 'n', 'p', 'r', 'o', 't', 'o', 'c', 'o', 'l', '.',
     'o', 'r', 'g'], 3478, 4⟩,
   ⟨['s', 't', 'u', 'n', '.', 'l', '.', 'g', 'o', 'o', 'g', 'l', 'e', '.', 'c', 'o', 'm'],
    19302, 6⟩,
   ⟨['s', 't', 'u', 'n', '1', '.', 'l', '.', 'g', 'o', 'o', 'g', 'l', 'e', '.', 'c', 'o', 'm'],
    19302, 6⟩,
   ⟨['s', 't', 'u', 'n', '.', 'c', 'l', 'o', 'u', 'd', 'f', 'l', 'a', 'r', 'e', '.', 'c', 'o', 'm'],
    3478, 6⟩]

structure StunResult where
  ip : List Char
  port : Nat
  server : List Char
  family : Nat
deriving Repr, DecidableEq

/-- The message of the error thrown when every server failed. -/
def stunExhaustedMsg : List Char :=
  ['F', 'a', 'i', 'l', 'e', 'd', ' ', 't', 'o', ' ', 'd', 'e', 't', 'e', 'c', 't', ' ',
   'p', 'u', 'b', 'l', 'i', 'c', ' ', 'I', 'P', ' ', 'v', 'i', 'a', ' ', 'S', 'T', 'U', 'N',
   ' ', 'f', 'r', 'o', 'm', ' ', 'a', 'l', 'l', ' ', 's', 'e', 'r', 'v', 'e', 'r', 's']

/-- The for-loop of detectPublicIpViaStun over a remaining server list:
query the head; on success return its ip immediately; on any failure move
to the next server; when the list is exhausted throw the fixed error.
The effect of one queryStunServer call (DNS resolution, the UDP exchange,
timeout and response parsing) is abstracted as the query oracle. -/
def detectLoop (query : StunServer → Except (List Char) StunResult) :
    List StunServer → Except (List Char) (List Char)
  | [] => .error stunExhaustedMsg
  | s :: rest =>
    match query s with
    | .ok r => .ok r.ip
    | .error _ => detectLoop query rest

/-- detectPublicIpViaStun from StunClient.ts: try the fixed server list in
order. -/
def detectPublicIpViaStun (query : StunServer → Except (List Char) StunResult) :
    Except (List Char) (List Char) :=
  detectLoop query STUN_SERVERS

end StunClient

namespace Orchestrator

/-- Result of checkBackendVersion as consumed by main (the error text is
only interpolated into log lines and is omitted). -/
structure VersionInfo where
  version : Nat
  compatible : Bool
deriving Repr, DecidableEq

structure HealthCheckConfig where
  path : List Char
  host : Option (List Char)
deriving Repr, DecidableEq

structure Route where
  ip : List Char
  port : Nat
  priority : Nat
  label : List Char
  healthCheck : Option HealthCheckConfig
deriving Repr, DecidableEq

/-- The orchestrator only ever reads expiresAt from the certificate
state; the PEM paths play no role in the control flow. -/
structure CertState where
  expiresAt : Nat
deriving Repr, DecidableEq

structure RegisterResult where
  success : Bool
  domain : Option (List Char)
  error : Option (List Char)
deriving Repr, DecidableEq

/-- The configuration record read by main. publicIp empty means
auto-detect, matching the config.PUBLIC_IP || detectPublicIp()
truthiness test. -/
structure Config where
  publicIp : List Char
  targetPort : Nat
  routePriority : Nat
  healthCheck : Option HealthCheckConfig
  errorRetryInterval : Nat
  refreshInterval : Nat

/-- Outcomes of the external calls available to one attempt or one
refresh cycle: each awaited service call of main is abstracted as an
oracle field (throwing = .error / none). renewalDue stands for
needsRenewal(expiresAt) evaluated at the current time. -/
structure Env where
  versionResult : Except (List Char) VersionInfo
  healthResult : Except (List Char) Bool
  certLoaded : Option CertState
  renewalDue : Nat → Bool
  keyResult : Except (List Char) (List Char)
  certRequest : Except (List Char) CertState
  ipResult : Except (List Char) (List Char)
  registerResult : Route → Except (List Char) RegisterResult

/-- The observable actions of the orchestrator, in program order. -/
inductive Event where
  | checkVersion
  | checkHealth
  | certLoad
  | keyGen
  | certReq
  | detectIp
  | register (routes : List Route)
  | logFailure
  | sleep (seconds : Nat)
  | exitProcess
deriving Repr, DecidableEq

/-- Modelled from the spec: buildRoute of services/IpRegistrar.ts is
absent from src/; per the spec a Route is the tuple of the given ip,
port, priority, label and optional health check, passed through
unchanged. -/
def buildRoute (ip : List Char) (port priority : Nat) (label : List Char)
    (healthCheck : Option HealthCheckConfig) : Route :=
  ⟨ip, port, priority, label, healthCheck⟩

/-- The certificate block of the initialization chain: load the state;
if absent or due for renewal, ensure the key pair and request a
certificate (either may throw); otherwise keep the loaded state. -/
def certPhaseInit (env : Env) : List Event × Option CertState :=
  match env.certLoaded with
  | none =>
    match env.keyResult with
    | .error _ => ([.certLoad, .keyGen], none)
    | .ok _ =>
      match env.certRequest with
      | .error _ => ([.certLoad, .keyGen, .certReq], none)
      | .ok cs => ([.certLoad, .keyGen, .certReq], some cs)
  | some cs0 =>
    if env.renewalDue cs0.expiresAt then
      match env.keyResult with
      | .error _ => ([.certLoad, .keyGen], none)
      | .ok _ =>
        match env.certRequest with
        | .error _ => ([.certLoad, .keyGen, .certReq], none)
        | .ok cs => ([.certLoad, .keyGen, .certReq], some cs)
    else ([.certLoad], some cs0)

/-- config.PUBLIC_IP || (await detectPublicIp()): the override short
circuits detection; otherwise detection may throw. -/
def ipPhase (cfg : Config) (env : Env) : List Event × Option (List Char) :=
  if cfg.publicIp.isEmpty then
    match env.ipResult with
    | .error _ => ([.detectIp], none)
    | .ok ip => ([.detectIp], some ip)
  else ([], some cfg.publicIp)

/-- One pass of the initialization try-block of main: version check (throw
if incompatible), health check (throw if not ready), certificate block,
address, route build, registration (throw on transport error or on
success=false). The returned trace lists the calls made before the first
throw; none means the attempt threw. -/
def attempt (cfg : Config) (env : Env) : List Event × Option (CertState × Route) :=
  match env.versionResult with
  | .error _ => ([.checkVersion], none)
  | .ok vi =>
    if vi.compatible = false then ([.checkVersion], none)
    else
      match env.healthResult with
      | .error _ => ([.checkVersion, .checkHealth], none)
      | .ok ready =>
        if ready = false then ([.checkVersion, .checkHealth], none)
        else
          match certPhaseInit env with
          | (ce, none) => ([.checkVersion, .checkHealth] ++ ce, none)
          | (ce, some cert) =>
            match ipPhase cfg env with
            | (ie, none) => ([.checkVersion, .checkHealth] ++ ce ++ ie, none)
            | (ie, some ip) =>
              let route := buildRoute ip cfg.targetPort cfg.routePriority
                ['a', 'g', 'e', 'n', 't'] cfg.healthCheck
              match env.registerResult route with
              | .error _ =>
                ([.checkVersion, .checkHealth] ++ ce ++ ie ++ [.register [route]], none)
              | .ok res =>
                if res.success = false then
                  ([.checkVersion, .checkHealth] ++ ce ++ ie ++ [.register [route]], none)
                else
                  ([.checkVersion, .checkHealth] ++ ce ++ ie ++ [.register [route]],
                   some (cert, route))

/-- The certificate block of one refresh cycle: renew only when due;
on a throw the held state is kept (none marks the throw). -/
def refreshCert (env : Env) (c : CertState) : List Event × Option CertState :=
  if env.renewalDue c.expiresAt then
    match env.keyResult with
    | .error _ => ([.keyGen], none)
    | .ok _ =>
      match env.certRequest with
      | .error _ => ([.keyGen, .certReq], none)
      | .ok cs => ([.keyGen, .certReq], some cs)
  else ([], some c)

/-- One refresh cycle body with its catch: certificate renewal, address
re-detection, in-place ip update when the address changed, registration.
Every throw is caught and logged; mutations made before the throw (a
renewed certificate, an updated route ip) persist. A registration reply
with success=false is only logged. -/
def refreshCycle (cfg : Config) (env : Env) (c : CertState) (r : Route) :
    List Event × CertState × Route :=
  match refreshCert env c with
  | (ce, none) => (ce ++ [.logFailure], c, r)
  | (ce, some c') =>
    match ipPhase cfg env with
    | (ie, none) => (ce ++ ie ++ [.logFailure], c', r)
    | (ie, some currentIp) =>
      let r' := if currentIp ≠ r.ip then { r with ip := currentIp } else r
      match env.registerResult r' with
      | .error _ => (ce ++ ie ++ [.register [r'], .logFailure], c', r')
      | .ok res =>
        if res.success = false then
          (ce ++ ie ++ [.register [r'], .logFailure], c', r')
        else (ce ++ ie ++ [.register [r']], c', r')

/-- The two orchestrator states of the spec state machine. -/
inductive OrchState where
  | initializing
  | running (cert : CertState) (route : Route)
deriving Repr, DecidableEq

/-- One step of main: a failed attempt logs, sleeps the error-retry
interval and stays Initializing; a successful attempt enters Running; a
running state sleeps the refresh interval and runs one refresh cycle. -/
def step (cfg : Config) (env : Env) : OrchState → OrchState × List Event
  | .initializing =>
    match attempt cfg env with
    | (tr, none) => (.initializing, tr ++ [.logFailure, .sleep cfg.errorRetryInterval])
    | (tr, some (c, r)) => (.running c r, tr)
  | .running c r =>
    match refreshCycle cfg env c r with
    | (tr, c', r') => (.running c' r', .sleep cfg.refreshInterval :: tr)

/-- The orchestrator after n steps, each step drawing its call outcomes
from the per-step environment. -/
def run (cfg : Config) (envs : Nat → Env) : Nat → OrchState
  | 0 => .initializing
  | n + 1 => (step cfg (envs n) (run cfg envs n)).1

end Orchestrator

namespace CertManager

def ASN1_UTF8STRING : Nat := 12

def ASN1_PRINTABLESTRING : Nat := 19

/-- One X.509 subject attribute as node-forge represents it: name, text
value, and the ASN.1 tag chosen for the value. -/
structure SubjectAttr where
  name : List Char
  value : List Char
  valueTag : Nat
deriving Repr, DecidableEq

/-- The subject built by generateCSR (the code pattern of
CertificateManager, exercised by ip-registrar.spec.ts): a single
commonName attribute carrying the userId with valueTagClass forced to
UTF8String (tag 12). Key-pair generation and signing are outside every
claim and omitted. -/
def csrSubject (userId : List Char) : List SubjectAttr :=
  [⟨['c', 'o', 'm', 'm', 'o', 'n', 'N', 'a', 'm', 'e'], userId, ASN1_UTF8STRING⟩]

/-- Modelled from the spec: the serialisation of the common-name subject
attribute inside the PEM body (node-forge certificationRequestToPem and
the CertificateManager code calling it are absent from src/) — the
attribute's tag, then the value length, then the value's code points. -/
def encodeAttr (a : SubjectAttr) : List Nat :=
  a.valueTag :: a.value.length :: a.value.map Char.toNat

/-- Modelled from the spec: the strict parse of the serialised
common-name attribute (certificationRequestFromPem plus
subject.getField, absent from src/) — accepts only the unrestricted
UTF8String representation and recovers the text value. -/
def decodeAttr (bs : List Nat) : Option SubjectAttr :=
  match bs with
  | tag :: len :: rest =>
    if tag = ASN1_UTF8STRING ∧ rest.length = len then
      some ⟨['c', 'o', 'm', 'm', 'o', 'n', 'N', 'a', 'm', 'e'], rest.map Char.ofNat, tag⟩
    else none
  | _ => none

end CertManager

namespace StunClient

/-- XORing a byte twice with the same key and truncating to a byte is the
identity. -/
theorem xorByteCancel {x : Nat} (hx : x < 256) (k : Nat) :
    ((x ^^^ k) ^^^ k) % 256 = x := by
  rw [Nat.xor_assoc, Nat.xor_self, Nat.xor_zero]
  exact Nat.mod_eq_of_lt hx

/-- Recombining the two big-endian bytes of a XORed port and XORing with
the upper 16 bits of the magic cookie recovers the port. -/
theorem xorPortCancel (p : Nat) :
    ((p ^^^ 0x2112) / 256 * 256 + (p ^^^ 0x2112) % 256) ^^^ 0x2112 = p := by
  have h : (p ^^^ 0x2112) / 256 * 256 + (p ^^^ 0x2112) % 256 = p ^^^ 0x2112 := by omega
  rw [h, Nat.xor_assoc, Nat.xor_self, Nat.xor_zero]

/-- C1: for every synthetic STUN binding-response buffer with the correct
magic cookie, the binding-response message type, and a well-formed
XOR-mapped-address attribute, parseBindingResponse returns exactly the
encoded IP and port: the port is the attribute's 16-bit value XORed with
the upper 16 bits of the magic cookie, IPv4 address bytes are XORed with
the 4 magic-cookie bytes, and IPv6 address bytes are XORed with the
magic cookie followed by the request's 12-byte transaction id. -/
theorem parseBindingResponse_xor_roundtrip :
    (∀ a b c d p t0 t1 t2 t3 t4 t5 t6 t7 t8 t9 t10 t11 : Nat,
      a < 256 → b < 256 → c < 256 → d < 256 → p < 65536 →
      parseBindingResponse
          (mkXorV4Response a b c d p [t0, t1, t2, t3, t4, t5, t6, t7, t8, t9, t10, t11])
          [t0, t1, t2, t3, t4, t5, t6, t7, t8, t9, t10, t11]
        = some ⟨formatIpv4 [a, b, c, d], p, 4⟩) ∧
    (∀ x0 x1 x2 x3 x4 x5 x6 x7 x8 x9 x10 x11 x12 x13 x14 x15 p
        t0 t1 t2 t3 t4 t5 t6 t7 t8 t9 t10 t11 : Nat,
      x0 < 256 → x1 < 256 → x2 < 256 → x3 < 256 →
      x4 < 256 → x5 < 256 → x6 < 256 → x7 < 256 →
      x8 < 256 → x9 < 256 → x10 < 256 → x11 < 256 →
      x12 < 256 → x13 < 256 → x14 < 256 → x15 < 256 → p < 65536 →
      parseBindingResponse
          (mkXorV6Response
            [x0, x1, x2, x3, x4, x5, x6, x7, x8, x9, x10, x11, x12, x13, x14, x15]
            p [t0, t1, t2, t3, t4, t5, t6, t7, t8, t9, t10, t11])
          [t0, t1, t2, t3, t4, t5, t6, t7, t8, t9, t10, t11]
        = some ⟨formatIpv6 [x0, x1, x2, x3, x4, x5, x6, x7, x8, x9, x10,
                            x11, x12, x13, x14, x15], p, 6⟩) := by
  constructor
  · intro a b c d p t0 t1 t2 t3 t4 t5 t6 t7 t8 t9 t10 t11 hA hB hC hD _hP
    have ha := xorByteCancel hA 0x21
    have hb := xorByteCancel hB 0x12
    have hc := xorByteCancel hC 0xA4
    have hd := xorByteCancel hD 0x42
    have hp := xorPortCancel p
    have hcookie : (554869826 : Nat) >>> 16 = 8466 := by decide
    norm_num [parseBindingResponse, mkXorV4Response, readUInt16BE, readUInt32BE,
      STUN_BINDING_RESPONSE, STUN_MAGIC_COOKIE]
    rw [parseAttrs]
    norm_num [readUInt16BE, readUInt8, bufSlice, List.range_succ,
      STUN_ATTR_XOR_MAPPED_ADDRESS, STUN_MAGIC_COOKIE, hcookie, ha, hb, hc, hd, hp]
  · intro x0 x1 x2 x3 x4 x5 x6 x7 x8 x9 x10 x11 x12 x13 x14 x15 p
      t0 t1 t2 t3 t4 t5 t6 t7 t8 t9 t10 t11
      h0 h1 h2 h3 h4 h5 h6 h7 h8 h9 h10 h11 h12 h13 h14 h15 _hP
    have e0 := xorByteCancel h0 0x21
    have e1 := xorByteCancel h1 0x12
    have e2 := xorByteCancel h2 0xA4
    have e3 := xorByteCancel h3 0x42
    have e4 := xorByteCancel h4 t0
    have e5 := xorByteCancel h5 t1
    have e6 := xorByteCancel h6 t2
    have e7 := xorByteCancel h7 t3
    have e8 := xorByteCancel h8 t4
    have e9 := xorByteCancel h9 t5
    have e10 := xorByteCancel h10 t6
    have e11 := xorByteCancel h11 t7
    have e12 := xorByteCancel h12 t8
    have e13 := xorByteCancel h13 t9
    have e14 := xorByteCancel h14 t10
    have e15 := xorByteCancel h15 t11
    have hp := xorPortCancel p
    have hcookie : (554869826 : Nat) >>> 16 = 8466 := by decide
    have hkey : (([t0, t1, t2, t3, t4, t5, t6, t7, t8, t9, t10, t11] : List Nat) ++
        List.replicate 12 0).take 12
        = [t0, t1, t2, t3, t4, t5, t6, t7, t8, t9, t10, t11] := rfl
    norm_num [parseBindingResponse, mkXorV6Response, readUInt16BE, readUInt32BE,
      STUN_BINDING_RESPONSE, STUN_MAGIC_COOKIE]
    rw [parseAttrs]
    norm_num [readUInt16BE, readUInt8, bufSlice, List.range_succ, hkey,
      STUN_ATTR_XOR_MAPPED_ADDRESS, STUN_MAGIC_COOKIE, hcookie, hp,
      e0, e1, e2, e3, e4, e5, e6, e7, e8, e9, e10, e11, e12, e13, e14, e15]

/-- Witness for C1: the example of the spec — a buffer encoding
192.168.1.1 port 12345 parses to exactly that IP and port, and a buffer
encoding 2001:db8::1 (full form) port 8080 parses to its full-form
string. -/
theorem parseBindingResponse_xor_roundtrip_witness :
    parseBindingResponse
        (mkXorV4Response 192 168 1 1 12345 [7, 7, 7, 7, 7, 7, 7, 7, 7, 7, 7, 7])
        [7, 7, 7, 7, 7, 7, 7, 7, 7, 7, 7, 7]
      = some ⟨['1', '9', '2', '.', '1', '6', '8', '.', '1', '.', '1'], 12345, 4⟩ ∧
    parseBindingResponse
        (mkXorV6Response [0x20, 0x01, 0x0d, 0xb8, 0, 0, 0, 0, 0, 0, 0, 0, 0, 0, 0, 1]
          8080 [1, 2, 3, 4, 5, 6, 7, 8, 9, 10, 11, 12])
        [1, 2, 3, 4, 5, 6, 7, 8, 9, 10, 11, 12]
      = some ⟨['2', '0', '0', '1', ':', 'd', 'b', '8', ':', '0', ':', '0', ':',
               '0', ':', '0', ':', '0', ':', '1'], 8080, 6⟩ := by
  constructor
  · rw [parseBindingResponse_xor_roundtrip.1 192 168 1 1 12345 7 7 7 7 7 7 7 7 7 7 7 7
      (by decide) (by decide) (by decide) (by decide) (by decide)]
    decide
  · rw [parseBindingResponse_xor_roundtrip.2 0x20 0x01 0x0d 0xb8 0 0 0 0 0 0 0 0 0 0 0 1
      8080 1 2 3 4 5 6 7 8 9 10 11 12
      (by decide) (by decide) (by decide) (by decide) (by decide) (by decide) (by decide)
      (by decide) (by decide) (by decide) (by decide) (by decide) (by decide) (by decide)
      (by decide) (by decide) (by decide)]
    decide

/-- C7: every response buffer shorter than 20 bytes, or whose 2-byte
message type is not the binding-response constant, or whose 4-byte magic
cookie is not 0x2112A442, parses to no result. -/
theorem parseBindingResponse_rejects (response tid : List Nat)
    (h : response.length < 20 ∨ readUInt16BE response 0 ≠ STUN_BINDING_RESPONSE ∨
      readUInt32BE response 4 ≠ STUN_MAGIC_COOKIE) :
    parseBindingResponse response tid = none := by
  unfold parseBindingResponse
  split_ifs with h1 h2 h3
  · rfl
  · rfl
  · rfl
  · rcases h with h | h | h
    · exact absurd h h1
    · exact absurd h2 (by simpa using h)
    · exact absurd h3 (by simpa using h)

/-- Witness for C7: the empty buffer, a 20-byte zero buffer (wrong message
type), and a binding response whose magic cookie byte is flipped all
produce no result. -/
theorem parseBindingResponse_rejects_witness :
    parseBindingResponse [] [] = none ∧
    parseBindingResponse (List.replicate 20 0) [] = none ∧
    parseBindingResponse
      [0x01, 0x01, 0x00, 0x00, 0x99, 0x12, 0xA4, 0x42, 0, 0, 0, 0, 0, 0, 0, 0, 0, 0, 0, 0]
      [] = none :=
  ⟨parseBindingResponse_rejects [] [] (Or.inl (by decide)),
   parseBindingResponse_rejects (List.replicate 20 0) [] (Or.inr (Or.inl (by decide))),
   parseBindingResponse_rejects _ [] (Or.inr (Or.inr (by decide)))⟩




end StunClient

namespace IpValidation

open StrUtil

example : isValidIPv6 ['2','0','0','1',':','0','d','b','8',':','8','5','a','3',':','0','0','0','0',':','0','0','0','0',':','8','a','2','e',':','0','3','7','0',':','7','3','3','4'] = true := by decide

example : isValidIPv6 [':',':','1'] = true := by decide

example : isValidIPv6 ['f','e','8','0',':',':','1'] = true := by decide

example : isValidIPv6 ['2','0','0','1',':','d','b','8',':',':'] = true := by decide

example : isValidIPv6 [':',':'] = true := by decide

example : isValidIPv6 ['2','0','0','1',':','d','b','8',':',':','1'] = true := by decide

example : isValidIPv6 ['2','0','0','1',':',':','d','b','8',':',':','1'] = false := by decide

example : isValidIPv6 ['2','0','0','1',':','d','b','8',':','8','5','a','3',':','0','0','0','0',':','0','0','0','0',':','8','a','2','e',':','0','3','7','0',':','7','3','3','4',':','e','x','t','r','a'] = false := by decide

example : isValidIPv6 ['2','0','0','1',':','d','b','8',':','8','5','a','3',':','0','0','0','0',':','0','0','0','0',':','8','a','2','e',':','0','3','7','0'] = false := by decide

example : isValidIPv6 ['g','g','g','g',':',':','1'] = false := by decide

/-- Unfolding: a window that is not "::" slides by one character. -/
theorem countDC_cons_cons (a b : Char) (rest : List Char) (h : ¬(a = ':' ∧ b = ':')) :
    countDC (a :: b :: rest) = countDC (b :: rest) := by
  simp only [countDC]; rw [if_neg h]

/-- Unfolding: a "::" window is counted and both colons are consumed. -/
theorem countDC_dc (rest : List Char) :
    countDC (':' :: ':' :: rest) = countDC rest + 1 := by
  simp [countDC]

/-- Scanning for "::" skips over any colon-free block. -/
theorem countDC_hexfree : ∀ (g : List Char), ':' ∉ g → ∀ (s : List Char),
    countDC (g ++ s) = countDC s := by
  intro g
  induction g with
  | nil => intro _ s; rfl
  | cons c g ih =>
    intro hg s
    have hc : c ≠ ':' := fun h => hg (h ▸ List.mem_cons_self c g)
    have hg' : ':' ∉ g := fun h => hg (List.mem_cons_of_mem c h)
    cases g with
    | nil =>
      cases s with
      | nil => rfl
      | cons d s' => exact countDC_cons_cons c d s' (fun h => hc h.1)
    | cons c2 g' =>
      have step : countDC (c :: c2 :: (g' ++ s)) = countDC (c2 :: (g' ++ s)) :=
        countDC_cons_cons c c2 (g' ++ s) (fun h => hc h.1)
      simpa [step] using ih hg' s

/-- Scanning for "::" skips over a join of nonempty colon-free pieces. -/
theorem countDC_join : ∀ (gs : List (List Char)), (∀ g ∈ gs, g ≠ [] ∧ ':' ∉ g) →
    ∀ (s : List Char), countDC (joinColon gs ++ s) = countDC s := by
  intro gs
  induction gs with
  | nil => intro _ s; rfl
  | cons g gs ih =>
    intro h s
    cases gs with
    | nil =>
      simpa [joinColon] using countDC_hexfree g (h g (List.mem_cons_self g [])).2 s
    | cons g2 gs' =>
      have hgmem := h g (List.mem_cons_self g (g2 :: gs'))
      have hg2mem := h g2 (List.mem_cons_of_mem g (List.mem_cons_self g2 gs'))
      obtain ⟨c, t, rfl⟩ : ∃ c t, g2 = c :: t := by
        cases g2 with
        | nil => exact absurd rfl hg2mem.1
        | cons c t => exact ⟨c, t, rfl⟩
      have hc : c ≠ ':' := fun hcc => hg2mem.2 (hcc ▸ List.mem_cons_self c t)
      have hjoin : ∃ r, joinColon ((c :: t) :: gs') = c :: r := by
        cases gs' with
        | nil => exact ⟨t, rfl⟩
        | cons g3 gs'' => exact ⟨t ++ ':' :: joinColon (g3 :: gs''), rfl⟩
      obtain ⟨r, hr⟩ := hjoin
      have ihs := ih (fun g hg => h g (List.mem_cons_of_mem _ hg)) s
      calc countDC (joinColon (g :: (c :: t) :: gs') ++ s)
          = countDC (g ++ ':' :: (joinColon ((c :: t) :: gs') ++ s)) := by
            simp [joinColon]
        _ = countDC (':' :: (joinColon ((c :: t) :: gs') ++ s)) :=
            countDC_hexfree g hgmem.2 _
        _ = countDC (':' :: c :: (r ++ s)) := by rw [hr]; rfl
        _ = countDC (c :: (r ++ s)) :=
            countDC_cons_cons ':' c (r ++ s) (fun h => hc h.2)
        _ = countDC (joinColon ((c :: t) :: gs') ++ s) := by rw [hr]; rfl
        _ = countDC s := ihs

/-- ip.includes('::') holds exactly when the "::" match count is nonzero. -/
theorem hasDC_eq_countDC (s : List Char) : hasDC s = true ↔ countDC s ≠ 0 := by
  induction s with
  | nil => simp [hasDC, countDC]
  | cons a s ih =>
    cases s with
    | nil => simp [hasDC, countDC]
    | cons b rest =>
      by_cases h : a = ':' ∧ b = ':'
      · simp [hasDC, countDC, h.1, h.2]
      · have ha : ¬(a == ':' && b == ':') = true := by
          simp only [Bool.and_eq_true, beq_iff_eq]; exact h
        simp only [hasDC, countDC, if_neg h, Bool.or_eq_true]
        constructor
        · intro hor
          rcases hor with hx | hx
          · exact absurd hx ha
          · exact ih.mp hx
        · intro hx; exact Or.inr (ih.mpr hx)

/-- Unfolding: a non-"::" window slides by one character in the split. -/
theorem splitFirstDC_cons_cons (a b : Char) (rest : List Char)
    (h : ¬(a = ':' ∧ b = ':')) :
    splitFirstDC (a :: b :: rest)
      = (a :: (splitFirstDC (b :: rest)).1, (splitFirstDC (b :: rest)).2) := by
  simp only [splitFirstDC]; rw [if_neg h]

/-- The first-"::"-split passes over a colon-free block. -/
theorem splitFirstDC_hexfree : ∀ (g : List Char), ':' ∉ g → ∀ (s : List Char),
    splitFirstDC (g ++ s) = (g ++ (splitFirstDC s).1, (splitFirstDC s).2) := by
  intro g
  induction g with
  | nil => intro _ s; rfl
  | cons c g ih =>
    intro hg s
    have hc : c ≠ ':' := fun h => hg (h ▸ List.mem_cons_self c g)
    have hg' : ':' ∉ g := fun h => hg (List.mem_cons_of_mem c h)
    cases g with
    | nil =>
      cases s with
      | nil => rfl
      | cons d s' =>
        rw [List.singleton_append, splitFirstDC_cons_cons c d s' (fun h => hc h.1)]
        rfl
    | cons c2 g' =>
      have step := splitFirstDC_cons_cons c c2 (g' ++ s) (fun h => hc h.1)
      have ihs := ih hg' s
      simp only [List.cons_append] at step ihs ⊢
      rw [step, ihs]

/-- The first-"::"-split passes over a join of nonempty colon-free pieces
and splits exactly at the explicit "::" that follows. -/
theorem splitFirstDC_join : ∀ (gs : List (List Char)),
    (∀ g ∈ gs, g ≠ [] ∧ ':' ∉ g) → ∀ (B : List Char),
    splitFirstDC (joinColon gs ++ ':' :: ':' :: B) = (joinColon gs, B) := by
  intro gs
  induction gs with
  | nil => intro _ B; rfl
  | cons g gs ih =>
    intro h B
    cases gs with
    | nil =>
      have := splitFirstDC_hexfree g (h g (List.mem_cons_self g [])).2 (':' :: ':' :: B)
      simpa [joinColon, splitFirstDC] using this
    | cons g2 gs' =>
      have hgmem := h g (List.mem_cons_self g (g2 :: gs'))
      have hg2mem := h g2 (List.mem_cons_of_mem g (List.mem_cons_self g2 gs'))
      obtain ⟨c, t, rfl⟩ : ∃ c t, g2 = c :: t := by
        cases g2 with
        | nil => exact absurd rfl hg2mem.1
        | cons c t => exact ⟨c, t, rfl⟩
      have hc : c ≠ ':' := fun hcc => hg2mem.2 (hcc ▸ List.mem_cons_self c t)
      have hjoin : ∃ r, joinColon ((c :: t) :: gs') = c :: r := by
        cases gs' with
        | nil => exact ⟨t, rfl⟩
        | cons g3 gs'' => exact ⟨t ++ ':' :: joinColon (g3 :: gs''), rfl⟩
      obtain ⟨r, hr⟩ := hjoin
      have ihs := ih (fun g hg => h g (List.mem_cons_of_mem _ hg)) B
      have hcolon :
          splitFirstDC (':' :: (joinColon ((c :: t) :: gs') ++ ':' :: ':' :: B))
            = (':' :: joinColon ((c :: t) :: gs'), B) := by
        rw [hr, List.cons_append,
          splitFirstDC_cons_cons ':' c (r ++ ':' :: ':' :: B) (fun h => hc h.2)]
        rw [hr] at ihs
        rw [List.cons_append] at ihs
        rw [ihs]
      calc splitFirstDC (joinColon (g :: (c :: t) :: gs') ++ ':' :: ':' :: B)
          = splitFirstDC (g ++ ':' :: (joinColon ((c :: t) :: gs') ++ ':' :: ':' :: B)) := by
            simp [joinColon]
        _ = (g ++ ':' :: joinColon ((c :: t) :: gs'), B) := by
            rw [splitFirstDC_hexfree g hgmem.2, hcolon]
        _ = (joinColon (g :: (c :: t) :: gs'), B) := by simp [joinColon]

/-- Splitting a colon-free block on ':' yields that single block. -/
theorem splitColon_hexfree : ∀ (g : List Char), ':' ∉ g → splitColon g = [g] := by
  intro g
  induction g with
  | nil => intro _; rfl
  | cons c g ih =>
    intro hg
    have hc : c ≠ ':' := fun h => hg (h ▸ List.mem_cons_self c g)
    have hg' : ':' ∉ g := fun h => hg (List.mem_cons_of_mem c h)
    simp only [splitColon]
    rw [if_neg hc, ih hg']
    rfl

/-- Splitting on ':' peels a leading colon-free block. -/
theorem splitColon_append : ∀ (g : List Char), ':' ∉ g → ∀ (t : List Char),
    splitColon (g ++ ':' :: t) = g :: splitColon t := by
  intro g
  induction g with
  | nil =>
    intro _ t
    simp [splitColon]
  | cons c g ih =>
    intro hg t
    have hc : c ≠ ':' := fun h => hg (h ▸ List.mem_cons_self c g)
    have hg' : ':' ∉ g := fun h => hg (List.mem_cons_of_mem c h)
    have harw : splitColon (g ++ ':' :: t) = g :: splitColon t := ih hg' t
    simp only [List.cons_append, splitColon, if_neg hc, List.append_eq, harw]
    rfl

/-- Splitting on ':' is nonempty for every input. -/
theorem splitColon_ne_nil (s : List Char) : splitColon s ≠ [] := by
  cases s with
  | nil => simp [splitColon]
  | cons c rest =>
    simp only [splitColon]
    split_ifs <;> simp

/-- Splitting a join of colon-free pieces on ':' recovers the pieces. -/
theorem splitColon_join : ∀ (gs : List (List Char)), (∀ g ∈ gs, ':' ∉ g) →
    gs ≠ [] → splitColon (joinColon gs) = gs := by
  intro gs
  induction gs with
  | nil => intro _ h; exact absurd rfl h
  | cons g gs ih =>
    intro h _
    cases gs with
    | nil => exact splitColon_hexfree g (h g (List.mem_cons_self g []))
    | cons g2 gs' =>
      have : joinColon (g :: g2 :: gs') = g ++ ':' :: joinColon (g2 :: gs') := rfl
      rw [this, splitColon_append g (h g (List.mem_cons_self g _)),
        ih (fun g hg => h g (List.mem_cons_of_mem _ hg)) (by simp)]

/-- Joining the ':'-split of any string restores the string. -/
theorem joinColon_splitColon : ∀ (s : List Char), joinColon (splitColon s) = s := by
  intro s
  induction s with
  | nil => rfl
  | cons c rest ih =>
    by_cases hc : c = ':'
    · subst hc
      simp only [splitColon, if_pos rfl]
      obtain ⟨g, gs, hg⟩ : ∃ g gs, splitColon rest = g :: gs := by
        cases h : splitColon rest with
        | nil => exact absurd h (splitColon_ne_nil rest)
        | cons g gs => exact ⟨g, gs, rfl⟩
      rw [hg] at ih ⊢
      show ([] : List Char) ++ ':' :: joinColon (g :: gs) = ':' :: rest
      rw [List.nil_append, ih]
    · simp only [splitColon, if_neg hc]
      obtain ⟨g, gs, hg⟩ : ∃ g gs, splitColon rest = g :: gs := by
        cases h : splitColon rest with
        | nil => exact absurd h (splitColon_ne_nil rest)
        | cons g gs => exact ⟨g, gs, rfl⟩
      rw [hg] at ih ⊢
      simp only [List.headD_cons, List.tail_cons]
      cases gs with
      | nil =>
        have hgr : g = rest := ih
        show c :: g = c :: rest
        rw [hgr]
      | cons g2 gs' =>
        have hgr : g ++ ':' :: joinColon (g2 :: gs') = rest := ih
        show (c :: g) ++ ':' :: joinColon (g2 :: gs') = c :: rest
        rw [List.cons_append, hgr]

/-- A join of nonempty pieces is nonempty. -/
theorem joinColon_ne_nil (gs : List (List Char)) (hne : gs ≠ [])
    (h : ∀ g ∈ gs, g ≠ []) : joinColon gs ≠ [] := by
  cases gs with
  | nil => exact absurd rfl hne
  | cons g gs' =>
    cases gs' with
    | nil =>
      simpa [joinColon] using h g (List.mem_cons_self g [])
    | cons g2 gs'' =>
      have := h g (List.mem_cons_self g (g2 :: gs''))
      cases g with
      | nil => exact absurd rfl this
      | cons c t => simp [joinColon]

/-- Hex groups contain no colon. -/
theorem isHexGroup_no_colon (g : List Char) (h : isHexGroup g = true) : ':' ∉ g := by
  intro hm
  have hall : g.all isHexDigit = true := by
    simp only [isHexGroup, Bool.and_eq_true] at h
    exact h.2
  have := (List.all_eq_true.mp hall) ':' hm
  simp [isHexDigit] at this

/-- Hex groups are nonempty. -/
theorem isHexGroup_ne_nil (g : List Char) (h : isHexGroup g = true) : g ≠ [] := by
  simp only [isHexGroup, Bool.and_eq_true] at h
  intro hnil
  rw [hnil] at h
  simp at h

/-- A hex group is made of IPv6 charset characters. -/
theorem isHexGroup_chars (g : List Char) (h : isHexGroup g = true) :
    g.all isIpv6Char = true := by
  simp only [isHexGroup, Bool.and_eq_true] at h
  rw [List.all_eq_true] at h ⊢
  intro c hc
  simp [isIpv6Char, h.2 c hc]

/-- A join of pieces all of whose characters satisfy P, where P holds of
':', satisfies P everywhere. -/
theorem all_join : ∀ (gs : List (List Char)) (P : Char → Bool), P ':' = true →
    (∀ g ∈ gs, g.all P = true) → (joinColon gs).all P = true := by
  intro gs
  induction gs with
  | nil => intro P _ _; rfl
  | cons g gs ih =>
    intro P hP h
    cases gs with
    | nil => simpa [joinColon] using h g (List.mem_cons_self g [])
    | cons g2 gs' =>
      have h1 := h g (List.mem_cons_self g _)
      have h2 := ih P hP (fun g hg => h g (List.mem_cons_of_mem _ hg))
      show ((g ++ ':' :: joinColon (g2 :: gs')).all P) = true
      simp only [List.all_append, List.all_cons, Bool.and_eq_true]
      exact ⟨h1, hP, h2⟩

/-- hasDC in Bool-false form gives a zero match count. -/
theorem countDC_zero_of_not_hasDC (s : List Char) (h : hasDC s = false) :
    countDC s = 0 := by
  by_contra hne
  have htrue : hasDC s = true := (hasDC_eq_countDC s).mpr hne
  rw [h] at htrue
  exact absurd htrue (by simp)

/-- Characterization of isValidIPv6 on strings without "::": it accepts
exactly the strings whose ':'-split has exactly 8 groups of 1-4 hex
digits. -/
theorem isValidIPv6_no_dc (s : List Char) (hdc : hasDC s = false) :
    isValidIPv6 s = true ↔
      (splitColon s).length = 8 ∧ (splitColon s).all isHexGroup = true := by
  constructor
  · intro h
    unfold isValidIPv6 at h
    rw [hdc] at h
    split_ifs at h <;> first | exact ⟨by omega, h⟩ | simp_all
  · intro h
    obtain ⟨hlen, hall⟩ := h
    have hne : s ≠ [] := by
      intro hnil
      rw [hnil] at hlen
      simp [splitColon] at hlen
    have hgroups : ∀ g ∈ splitColon s, g.all isIpv6Char = true := by
      intro g hg
      exact isHexGroup_chars g ((List.all_eq_true.mp hall) g hg)
    have hcs1 : testCharset1 s = true := by
      have hall6 : s.all isIpv6Char = true := by
        have := all_join (splitColon s) isIpv6Char (by decide) hgroups
        rwa [joinColon_splitColon s] at this
      simp [testCharset1, hall6, hne]
    have hcount : countDC s = 0 := countDC_zero_of_not_hasDC s hdc
    unfold isValidIPv6
    rw [hcs1, hdc, hcount]
    simp [hlen, hall]

/-- Characterization of isValidIPv6 on compressed forms: a string built
from at most 7 explicit hex groups around a single "::" is accepted. -/
theorem isValidIPv6_compressed (gs1 gs2 : List (List Char))
    (hall : (gs1 ++ gs2).all isHexGroup = true)
    (hlen : gs1.length + gs2.length ≤ 7) :
    isValidIPv6 (joinColon gs1 ++ ':' :: ':' :: joinColon gs2) = true := by
  have hmem : ∀ g ∈ gs1 ++ gs2, isHexGroup g = true := List.all_eq_true.mp hall
  have hprops1 : ∀ g ∈ gs1, g ≠ [] ∧ ':' ∉ g := fun g hg =>
    ⟨isHexGroup_ne_nil g (hmem g (List.mem_append_left _ hg)),
     isHexGroup_no_colon g (hmem g (List.mem_append_left _ hg))⟩
  have hprops2 : ∀ g ∈ gs2, g ≠ [] ∧ ':' ∉ g := fun g hg =>
    ⟨isHexGroup_ne_nil g (hmem g (List.mem_append_right _ hg)),
     isHexGroup_no_colon g (hmem g (List.mem_append_right _ hg))⟩
  set s := joinColon gs1 ++ ':' :: ':' :: joinColon gs2 with hs
  have hcount : countDC s = 1 := by
    rw [hs, countDC_join gs1 hprops1, countDC_dc]
    have : countDC (joinColon gs2) = 0 := by
      have := countDC_join gs2 hprops2 []
      simpa using this
    rw [this]
  have hhas : hasDC s = true := (hasDC_eq_countDC s).mpr (by omega)
  have hsf : splitFirstDC s = (joinColon gs1, joinColon gs2) :=
    splitFirstDC_join gs1 hprops1 (joinColon gs2)
  have hne : s ≠ [] := by
    intro h
    have := congrArg List.length h
    simp [hs] at this
  have hcs1 : testCharset1 s = true := by
    have hj1 : (joinColon gs1).all isIpv6Char = true :=
      all_join gs1 isIpv6Char (by decide)
        (fun g hg => isHexGroup_chars g (hmem g (List.mem_append_left _ hg)))
    have hj2 : (joinColon gs2).all isIpv6Char = true :=
      all_join gs2 isIpv6Char (by decide)
        (fun g hg => isHexGroup_chars g (hmem g (List.mem_append_right _ hg)))
    simp [testCharset1, hs, List.all_append, hj1, hj2, isIpv6Char, hne]
  have hleft : (if (splitFirstDC s).1.isEmpty then ([] : List (List Char))
      else splitColon (splitFirstDC s).1) = gs1 := by
    rw [hsf]
    cases gs1 with
    | nil => simp [joinColon]
    | cons g gs' =>
      have hne1 : joinColon (g :: gs') ≠ [] :=
        joinColon_ne_nil (g :: gs') (by simp) (fun g hg => (hprops1 g hg).1)
      rw [if_neg (by simpa [List.isEmpty_iff] using hne1)]
      exact splitColon_join (g :: gs') (fun g hg => (hprops1 g hg).2) (by simp)
  have hright : (if (splitFirstDC s).2.isEmpty then ([] : List (List Char))
      else splitColon (splitFirstDC s).2) = gs2 := by
    rw [hsf]
    cases gs2 with
    | nil => simp [joinColon]
    | cons g gs' =>
      have hne2 : joinColon (g :: gs') ≠ [] :=
        joinColon_ne_nil (g :: gs') (by simp) (fun g hg => (hprops2 g hg).1)
      rw [if_neg (by simpa [List.isEmpty_iff] using hne2)]
      exact splitColon_join (g :: gs') (fun g hg => (hprops2 g hg).2) (by simp)
  have hallor : (gs1 ++ gs2).all (fun g => g.isEmpty || isHexGroup g) = true := by
    rw [List.all_eq_true]
    intro g hg
    simp [hmem g hg]
  unfold isValidIPv6
  rw [hcs1, hcount, hhas]
  simp only [Bool.not_true, Bool.false_and, if_false, Bool.ite_eq_true_distrib]
  rw [hleft, hright]
  simp [hlen, hallor]

/-- C8: IPv6 validation accepts a string exactly when it has at most one
"::" compression and either (no "::") splits into exactly 8 hex groups of
1-4 digits, or (with "::") has at most 7 explicit groups; two compressions
are always rejected, a compressed form of hex groups with at most 7
explicit groups is always accepted, and in particular 2001::db8::1 is
rejected while ::1 and 2001:db8::1 are accepted. -/
theorem isValidIPv6_spec :
    (∀ s : List Char, 2 ≤ countDC s → isValidIPv6 s = false) ∧
    (∀ s : List Char, hasDC s = false →
      (isValidIPv6 s = true ↔
        (splitColon s).length = 8 ∧ (splitColon s).all isHexGroup = true)) ∧
    (∀ s : List Char, isValidIPv6 s = true → hasDC s = true →
      (if (splitFirstDC s).1.isEmpty then ([] : List (List Char))
        else splitColon (splitFirstDC s).1).length +
      (if (splitFirstDC s).2.isEmpty then ([] : List (List Char))
        else splitColon (splitFirstDC s).2).length ≤ 7) ∧
    (∀ gs1 gs2 : List (List Char), (gs1 ++ gs2).all isHexGroup = true →
      gs1.length + gs2.length ≤ 7 →
      isValidIPv6 (joinColon gs1 ++ ':' :: ':' :: joinColon gs2) = true) ∧
    isValidIPv6 ['2', '0', '0', '1', ':', ':', 'd', 'b', '8', ':', ':', '1'] = false ∧
    isValidIPv6 [':', ':', '1'] = true ∧
    isValidIPv6 ['2', '0', '0', '1', ':', 'd', 'b', '8', ':', ':', '1'] = true := by
  refine ⟨?_, fun s hdc => isValidIPv6_no_dc s hdc, ?_, isValidIPv6_compressed,
    by decide, by decide, by decide⟩
  · intro s h
    unfold isValidIPv6
    split_ifs <;> first | rfl | omega
  · intro s hv hdc
    unfold isValidIPv6 at hv
    rw [hdc] at hv
    split_ifs at hv <;> first | omega | simp_all

/-- Witness for C8: applications at concrete inputs — ::1::2 has two "::"
matches and is rejected; fe80:0:0:0:0:0:0:1 has no "::" and 8 hex groups
and is accepted; 2001:db8::1 is a compressed accepted form with 3 explicit
groups; and joining the groups 2001,db8 and 1 around a "::" is accepted. -/
theorem isValidIPv6_spec_witness :
    isValidIPv6 [':', ':', '1', ':', ':', '2'] = false ∧
    isValidIPv6 ['f', 'e', '8', '0', ':', '0', ':', '0', ':', '0', ':',
      '0', ':', '0', ':', '0', ':', '1'] = true ∧
    (if (splitFirstDC ['2', '0', '0', '1', ':', 'd', 'b', '8', ':', ':', '1']).1.isEmpty
      then ([] : List (List Char))
      else splitColon (splitFirstDC
        ['2', '0', '0', '1', ':', 'd', 'b', '8', ':', ':', '1']).1).length +
    (if (splitFirstDC ['2', '0', '0', '1', ':', 'd', 'b', '8', ':', ':', '1']).2.isEmpty
      then ([] : List (List Char))
      else splitColon (splitFirstDC
        ['2', '0', '0', '1', ':', 'd', 'b', '8', ':', ':', '1']).2).length ≤ 7 ∧
    isValidIPv6 (joinColon [['2', '0', '0', '1'], ['d', 'b', '8']] ++
      ':' :: ':' :: joinColon [['1']]) = true :=
  ⟨isValidIPv6_spec.1 [':', ':', '1', ':', ':', '2'] (by decide),
   (isValidIPv6_spec.2.1 ['f', 'e', '8', '0', ':', '0', ':', '0', ':', '0', ':',
      '0', ':', '0', ':', '0', ':', '1'] (by decide)).mpr ⟨by decide, by decide⟩,
   isValidIPv6_spec.2.2.1 ['2', '0', '0', '1', ':', 'd', 'b', '8', ':', ':', '1']
     (by decide) (by decide),
   isValidIPv6_spec.2.2.2.1 [['2', '0', '0', '1'], ['d', 'b', '8']] [['1']]
     (by decide) (by decide)⟩

end IpValidation

namespace StunClient

/-- The hex-digit accumulator appends its digits in front of the
accumulator argument. -/
theorem toHexAux_acc : ∀ (f n : Nat) (ds : List Char),
    toHexAux f n ds = toHexAux f n [] ++ ds := by
  intro f
  induction f with
  | zero => intro n ds; rfl
  | succ f ih =>
    intro n ds
    by_cases h : n < 16
    · simp [toHexAux, h]
    · simp only [toHexAux, if_neg h]
      rw [ih (n / 16) (digitChar (n % 16) :: ds), ih (n / 16) [digitChar (n % 16)]]
      simp

/-- The hex-digit accumulator is independent of the fuel once the fuel
exceeds the value. -/
theorem toHexAux_fuel : ∀ (f g n : Nat) (ds : List Char), n < f → n < g →
    toHexAux f n ds = toHexAux g n ds := by
  intro f
  induction f with
  | zero => intro g n ds hf; omega
  | succ f ih =>
    intro g n ds hf hg
    cases g with
    | zero => omega
    | succ g =>
      by_cases h : n < 16
      · simp [toHexAux, h]
      · simp only [toHexAux, if_neg h]
        have hdiv : n / 16 < n := Nat.div_lt_self (by omega) (by omega)
        exact ih g (n / 16) _ (by omega) (by omega)

/-- Recurrence for toHexString in the shape of the source loop. -/
theorem toHexString_unfold (n : Nat) :
    toHexString n = if n < 16 then [digitChar n]
      else toHexString (n / 16) ++ [digitChar (n % 16)] := by
  by_cases h : n < 16
  · simp [toHexString, toHexAux, h]
  · have hdiv : n / 16 < n := Nat.div_lt_self (by omega) (by omega)
    rw [if_neg h]
    show toHexAux (n + 1) n [] = _
    simp only [toHexAux, if_neg h]
    rw [toHexAux_acc, toHexAux_fuel n (n / 16 + 1) (n / 16) [] (by omega) (by omega)]
    rfl

/-- Digits emitted for values below 16 are hex digits. -/
theorem digitChar_hex (n : Nat) (h : n < 16) :
    IpValidation.isHexDigit (digitChar n) = true := by
  interval_cases n <;> decide

/-- Every character of a hex rendering is a hex digit. -/
theorem toHexString_all_hex (n : Nat) :
    (toHexString n).all IpValidation.isHexDigit = true := by
  induction n using Nat.strong_induction_on with
  | _ n ih =>
    rw [toHexString_unfold]
    by_cases h : n < 16
    · simp [if_pos h, digitChar_hex n h]
    · have hdiv : n / 16 < n := Nat.div_lt_self (by omega) (by omega)
      simp [if_neg h, List.all_append, ih (n / 16) hdiv,
        digitChar_hex (n % 16) (by omega)]

/-- A hex rendering is never empty. -/
theorem toHexString_ne_nil (n : Nat) : toHexString n ≠ [] := by
  rw [toHexString_unfold]
  split_ifs <;> simp

/-- A hex rendering of a value below 16^k has at most k digits. -/
theorem toHexString_len : ∀ (k n : Nat), 0 < k → n < 16 ^ k →
    (toHexString n).length ≤ k := by
  intro k
  induction k with
  | zero => intro n h; omega
  | succ k ih =>
    intro n _ hn
    rw [toHexString_unfold]
    by_cases h : n < 16
    · simp [h]
    · have hk : 0 < k := by
        by_contra hk0
        have : k = 0 := by omega
        rw [this] at hn
        simp [pow_one] at hn
        omega
      have hdivbound : n / 16 < 16 ^ k := by
        rw [Nat.div_lt_iff_lt_mul (by omega)]
        calc n < 16 ^ (k + 1) := hn
          _ = 16 ^ k * 16 := by rw [pow_succ]
      have := ih (n / 16) hk hdivbound
      simp only [if_neg h, List.length_append, List.length_cons, List.length_nil]
      omega

end StunClient

/-- Bytes read with a default of 0 from a list of bytes are bytes. -/
theorem getD_lt_256 (l : List Nat) (h : ∀ x ∈ l, x < 256) (j : Nat) :
    l.getD j 0 < 256 := by
  rcases hj : l[j]? with _ | x
  · simp [List.getD, hj]
  · have hx : x ∈ l := List.getElem?_mem hj
    simpa [List.getD, hj] using h x hx

namespace EnvConfig

/-- Splitting on ',' peels a leading comma-free block. -/
theorem splitComma_append : ∀ (g : List Char), ',' ∉ g → ∀ (t : List Char),
    splitComma (g ++ ',' :: t) = g :: splitComma t := by
  intro g
  induction g with
  | nil =>
    intro _ t
    simp [splitComma]
  | cons c g ih =>
    intro hg t
    have hc : c ≠ ',' := fun h => hg (h ▸ List.mem_cons_self c g)
    have hg' : ',' ∉ g := fun h => hg (List.mem_cons_of_mem c h)
    have harw : splitComma (g ++ ',' :: t) = g :: splitComma t := ih hg' t
    simp only [List.cons_append, splitComma, if_neg hc, List.append_eq, harw]
    rfl

/-- Splitting a comma-free block on ',' yields that single block. -/
theorem splitComma_commafree : ∀ (g : List Char), ',' ∉ g → splitComma g = [g] := by
  intro g
  induction g with
  | nil => intro _; rfl
  | cons c g ih =>
    intro hg
    have hc : c ≠ ',' := fun h => hg (h ▸ List.mem_cons_self c g)
    have hg' : ',' ∉ g := fun h => hg (List.mem_cons_of_mem c h)
    simp only [splitComma]
    rw [if_neg hc, ih hg']
    rfl

end EnvConfig

namespace StunClient

/-- The loop fails exactly when every listed server fails. -/
theorem detectLoop_error_iff :
    ∀ (l : List StunServer) (query : StunServer → Except (List Char) StunResult),
      detectLoop query l = .error stunExhaustedMsg ↔
        ∀ s ∈ l, ∃ e, query s = .error e := by
  intro l
  induction l with
  | nil => intro query; simp [detectLoop]
  | cons s rest ih =>
    intro query
    rcases hq : query s with e | r
    · simp only [detectLoop, hq]
      rw [ih query]
      constructor
      · intro h t ht
        rcases List.mem_cons.mp ht with rfl | ht'
        · exact ⟨e, hq⟩
        · exact h t ht'
      · intro h t ht
        exact h t (List.mem_cons_of_mem s ht)
    · simp only [detectLoop, hq]
      constructor
      · intro h; exact absurd h (by simp)
      · intro h
        obtain ⟨e, he⟩ := h s (List.mem_cons_self s rest)
        rw [hq] at he
        exact absurd he (by simp)

/-- The first succeeding server's ip is returned, with no later server
consulted. -/
theorem detectLoop_first_ok :
    ∀ (l : List StunServer) (query : StunServer → Except (List Char) StunResult)
      (i : Nat) (h : i < l.length) (r : StunResult),
      (∀ j (hj : j < i), ∃ e, query (l.get ⟨j, Nat.lt_trans hj h⟩) = .error e) →
      query (l.get ⟨i, h⟩) = .ok r →
      detectLoop query l = .ok r.ip := by
  intro l
  induction l with
  | nil => intro query i h; simp at h
  | cons s rest ih =>
    intro query i h r hprev hok
    cases i with
    | zero =>
      simp only [List.get] at hok
      simp [detectLoop, hok]
    | succ i' =>
      obtain ⟨e, he⟩ := hprev 0 (by omega)
      simp only [List.get] at he
      simp only [detectLoop, he]
      exact ih query i' (by simpa using h) r
        (fun j hj => by simpa using hprev (j + 1) (by omega)) (by simpa using hok)

/-- C6: detectPublicIpViaStun tries the fixed server list strictly in
order with no parallel fan-out; the first query that yields a decoded
address returns that ip immediately, and the function fails — with the
exhaustion error — exactly when every server in the ordered list fails. -/
theorem detectPublicIpViaStun_spec :
    (∀ query : StunServer → Except (List Char) StunResult,
      detectPublicIpViaStun query = .error stunExhaustedMsg ↔
        ∀ s ∈ STUN_SERVERS, ∃ e, query s = .error e) ∧
    (∀ (query : StunServer → Except (List Char) StunResult)
      (i : Nat) (h : i < STUN_SERVERS.length) (r : StunResult),
      (∀ j (hj : j < i), ∃ e, query (STUN_SERVERS.get ⟨j, Nat.lt_trans hj h⟩) = .error e) →
      query (STUN_SERVERS.get ⟨i, h⟩) = .ok r →
      detectPublicIpViaStun query = .ok r.ip) :=
  ⟨fun query => detectLoop_error_iff STUN_SERVERS query,
   fun query i h r hprev hok => detectLoop_first_ok STUN_SERVERS query i h r hprev hok⟩

/-- Witness for C6: an always-failing oracle yields the exhaustion error;
an oracle failing on the first two servers and succeeding on the third
returns the third answer. -/
theorem detectPublicIpViaStun_spec_witness :
    detectPublicIpViaStun (fun _ => .error []) = .error stunExhaustedMsg ∧
    detectPublicIpViaStun
      (fun s => if s.host.length = 18 then .error [] else .ok ⟨['9', '.', '9', '.', '9', '.', '9'], 1, s.host, 4⟩)
      = .ok ['9', '.', '9', '.', '9', '.', '9'] :=
  ⟨(detectPublicIpViaStun_spec.1 (fun _ => .error [])).mpr (fun s _ => ⟨[], rfl⟩),
   detectPublicIpViaStun_spec.2
     (fun s => if s.host.length = 18 then .error [] else .ok ⟨['9', '.', '9', '.', '9', '.', '9'], 1, s.host, 4⟩)
     0 (by decide) ⟨['9', '.', '9', '.', '9', '.', '9'], 1,
       ['s', 't', 'u', 'n', '.', 'l', '.', 'g', 'o', 'o', 'g', 'l', 'e', '.', 'c', 'o', 'm'], 4⟩
     (fun j hj => absurd hj (by omega)) rfl⟩

end StunClient

namespace EnvConfig

/-- C5: for every 3-part provider string with non-empty comma-free parts
whose first part starts with "http:" or "https:", parseProvider returns the
three fields unmodified; strings with an empty or missing part fail with
the format error and first parts not starting with "http" fail with the
scheme error — but the scheme check is only a "http" prefix check, so the
non-http scheme "httpx" is accepted, contradicting the error message and
the spec (the final conjunct evaluates the code at that failing input). -/
theorem parseProvider_spec :
    (∀ u i g : List Char, ',' ∉ u → ',' ∉ i → ',' ∉ g → i ≠ [] → g ≠ [] →
      (['h', 't', 't', 'p', ':'].isPrefixOf u = true ∨
        ['h', 't', 't', 'p', 's', ':'].isPrefixOf u = true) →
      parseProvider (u ++ ',' :: i ++ ',' :: g) = .ok ⟨u, i, g⟩) ∧
    (∀ s : List Char, ((splitComma s).getD 0 [] = [] ∨ (splitComma s).getD 1 [] = [] ∨
        (splitComma s).getD 2 [] = []) →
      parseProvider s = .error .invalidFormat) ∧
    (∀ s : List Char, (splitComma s).getD 0 [] ≠ [] → (splitComma s).getD 1 [] ≠ [] →
      (splitComma s).getD 2 [] ≠ [] →
      ['h', 't', 't', 'p'].isPrefixOf ((splitComma s).getD 0 []) = false →
      parseProvider s = .error .badScheme) ∧
    parseProvider ['h', 't', 't', 'p', 'x', ':', '/', '/', 'a', ',', 'u', ',', 'g']
      = .ok ⟨['h', 't', 't', 'p', 'x', ':', '/', '/', 'a'], ['u'], ['g']⟩ := by
  refine ⟨?_, ?_, ?_, rfl⟩
  · intro u i g hu hi hg hine hgne hpre
    have hune : ∃ t, u = 'h' :: 't' :: 't' :: 'p' :: t := by
      rcases hpre with hp | hp
      · obtain ⟨t, ht⟩ := Iff.mp List.isPrefixOf_iff_prefix hp
        exact ⟨':' :: t, by rw [← ht]; rfl⟩
      · obtain ⟨t, ht⟩ := Iff.mp List.isPrefixOf_iff_prefix hp
        exact ⟨'s' :: ':' :: t, by rw [← ht]; rfl⟩
    obtain ⟨t, rfl⟩ := hune
    have hsplit : splitComma ('h' :: 't' :: 't' :: 'p' :: t ++ ',' :: i ++ ',' :: g)
        = ['h' :: 't' :: 't' :: 'p' :: t, i, g] := by
      have hshape : 'h' :: 't' :: 't' :: 'p' :: t ++ ',' :: i ++ ',' :: g
          = 'h' :: 't' :: 't' :: 'p' :: t ++ ',' :: (i ++ ',' :: g) := by simp
      rw [hshape, splitComma_append _ hu, splitComma_append i hi,
        splitComma_commafree g hg]
    unfold parseProvider
    rw [hsplit]
    simp [List.isEmpty_iff, hine, hgne, List.isPrefixOf]
  · intro s h
    rcases h with h | h | h <;>
      simp [parseProvider, List.getD_eq_getElem?_getD, h] at * <;>
      simp [h]
  · intro s h0 h1 h2 hpre
    rw [List.getD_eq_getElem?_getD] at h0 h1 h2 hpre
    simp [parseProvider, List.isEmpty_iff, h0, h1, h2, hpre]

/-- Witness for C5: a valid https provider string parses to its exact three
fields, the empty string and a two-part string fail with the format error,
and an ftp scheme fails with the scheme error. -/
theorem parseProvider_spec_witness :
    parseProvider ['h', 't', 't', 'p', 's', ':', '/', '/', 'b', ',', 'u', ',', 's']
      = .ok ⟨['h', 't', 't', 'p', 's', ':', '/', '/', 'b'], ['u'], ['s']⟩ ∧
    parseProvider [] = .error .invalidFormat ∧
    parseProvider ['a', ',', 'b'] = .error .invalidFormat ∧
    parseProvider ['f', 't', 'p', ':', '/', '/', 'b', ',', 'u', ',', 's']
      = .error .badScheme := by
  refine ⟨?_, parseProvider_spec.2.1 [] (by decide),
    parseProvider_spec.2.1 ['a', ',', 'b'] (by decide),
    parseProvider_spec.2.2.1 ['f', 't', 'p', ':', '/', '/', 'b', ',', 'u', ',', 's']
      (by decide) (by decide) (by decide) (by decide)⟩
  have := parseProvider_spec.1 ['h', 't', 't', 'p', 's', ':', '/', '/', 'b'] ['u'] ['s']
    (by decide) (by decide) (by decide) (by decide) (by decide) (Or.inr (by decide))
  simpa using this

end EnvConfig

namespace Orchestrator

/-- The certificate block never issues a registration call. -/
theorem register_not_mem_certPhase (env : Env) (routes : List Route) :
    Event.register routes ∉ (certPhaseInit env).1 := by
  unfold certPhaseInit
  rcases env.certLoaded with _ | cs0
  · rcases env.keyResult with e | k
    · simp
    · rcases env.certRequest with e2 | cs <;> simp
  · dsimp only
    split_ifs
    · rcases env.keyResult with e | k
      · simp
      · rcases env.certRequest with e2 | cs <;> simp
    · simp

/-- The address block never issues a registration call. -/
theorem register_not_mem_ipPhase (cfg : Config) (env : Env) (routes : List Route) :
    Event.register routes ∉ (ipPhase cfg env).1 := by
  unfold ipPhase
  split_ifs
  · rcases env.ipResult with e | ip <;> simp
  · simp

/-- Every attempt begins with the version check. -/
theorem attempt_head (cfg : Config) (env : Env) :
    (attempt cfg env).1.head? = some .checkVersion := by
  unfold attempt
  rcases env.versionResult with e | vi
  · rfl
  · dsimp only
    split_ifs with h1
    · rfl
    · rcases env.healthResult with e | ready
      · rfl
      · dsimp only
        split_ifs with h2
        · rfl
        · cases hcp : certPhaseInit env with
          | mk ce co =>
            cases co with
            | none => simp
            | some cert =>
              cases hip : ipPhase cfg env with
              | mk ie io =>
                cases io with
                | none => simp
                | some ip =>
                  cases hr : env.registerResult (buildRoute ip cfg.targetPort
                      cfg.routePriority ['a', 'g', 'e', 'n', 't'] cfg.healthCheck) with
                  | error e => simp [hr]
                  | ok res =>
                    simp only [hr]
                    split_ifs <;> simp

/-- A registration call in an attempt trace implies the version check
reported compatible and the health check reported ready in that attempt. -/
theorem attempt_register_guarded (cfg : Config) (env : Env) (routes : List Route)
    (h : Event.register routes ∈ (attempt cfg env).1) :
    (∃ vi, env.versionResult = .ok vi ∧ vi.compatible = true) ∧
      env.healthResult = .ok true := by
  unfold attempt at h
  rcases hv : env.versionResult with e | vi <;> rw [hv] at h
  · simp at h
  · dsimp only at h
    split_ifs at h with h1
    · simp at h
    · rcases hh : env.healthResult with e | ready <;> rw [hh] at h
      · simp at h
      · dsimp only at h
        split_ifs at h with h2
        · simp at h
        · have hcompat : vi.compatible = true := by
            cases hcx : vi.compatible
            · exact absurd hcx h1
            · rfl
          have hready : ready = true := by
            cases hrx : ready
            · exact absurd hrx h2
            · rfl
          exact ⟨⟨vi, rfl, hcompat⟩, by rw [hready]⟩

/-- C2: while Initializing, every failure anywhere in the chain logs,
sleeps the error-retry interval and stays Initializing; every attempt
restarts from the version check; there is no retry bound — after any
number of all-failing attempts the state is still Initializing; and no
registration call is ever issued in an attempt before the version check
reported compatible and the health check reported ready in that same
attempt. -/
theorem init_retry_spec :
    (∀ (cfg : Config) (env : Env), (attempt cfg env).2 = none →
      step cfg env .initializing =
        (.initializing, (attempt cfg env).1 ++ [.logFailure, .sleep cfg.errorRetryInterval])) ∧
    (∀ (cfg : Config) (env : Env), (attempt cfg env).1.head? = some .checkVersion) ∧
    (∀ (cfg : Config) (envs : Nat → Env) (n : Nat),
      (∀ k, k < n → (attempt cfg (envs k)).2 = none) → run cfg envs n = .initializing) ∧
    (∀ (cfg : Config) (env : Env) (routes : List Route),
      Event.register routes ∈ (attempt cfg env).1 →
      (∃ vi, env.versionResult = .ok vi ∧ vi.compatible = true) ∧
        env.healthResult = .ok true) := by
  refine ⟨?_, attempt_head, ?_, attempt_register_guarded⟩
  · intro cfg env h
    cases hA : attempt cfg env with
    | mk tr res =>
      rw [hA] at h
      cases res with
      | none => simp [step, hA]
      | some p => simp at h
  · intro cfg envs n
    induction n with
    | zero => intro _; rfl
    | succ n ih =>
      intro h
      have hstate : run cfg envs n = .initializing := ih (fun k hk => h k (by omega))
      show (step cfg (envs n) (run cfg envs n)).1 = .initializing
      rw [hstate]
      cases hA : attempt cfg (envs n) with
      | mk tr res =>
        have := h n (by omega)
        rw [hA] at this
        cases res with
        | none => simp [step, hA]
        | some p => simp at this

/-- Witness for C2: with a version check that throws, one step from
Initializing logs, sleeps the configured error interval, and stays
Initializing; three such steps still sit in Initializing; the attempt
trace holds only the version check and begins with it; and with an
all-healthy environment the attempt that registers has a compatible
version report and a ready health report. -/
theorem init_retry_spec_witness :
    step ⟨[], 443, 1, none, 300, 300⟩
      ⟨.error ['x'], .ok true, none, fun _ => false, .ok [], .error [],
        .ok ['1'], fun _ => .ok ⟨true, none, none⟩⟩ .initializing
      = (.initializing, [.checkVersion, .logFailure, .sleep 300]) ∧
    (attempt ⟨[], 443, 1, none, 300, 300⟩
      ⟨.error ['x'], .ok true, none, fun _ => false, .ok [], .error [],
        .ok ['1'], fun _ => .ok ⟨true, none, none⟩⟩).1.head? = some .checkVersion ∧
    run ⟨[], 443, 1, none, 300, 300⟩
      (fun _ => ⟨.error ['x'], .ok true, none, fun _ => false, .ok [], .error [],
        .ok ['1'], fun _ => .ok ⟨true, none, none⟩⟩) 3 = .initializing ∧
    ((∃ vi, (Except.ok ⟨2, true⟩ : Except (List Char) VersionInfo) = .ok vi ∧
        vi.compatible = true) ∧
      (Except.ok true : Except (List Char) Bool) = .ok true) := by
  refine ⟨?_, init_retry_spec.2.1 _ _, init_retry_spec.2.2.1 _ _ 3 (fun k _ => rfl), ?_⟩
  · have := init_retry_spec.1 ⟨[], 443, 1, none, 300, 300⟩
      ⟨.error ['x'], .ok true, none, fun _ => false, .ok [], .error [],
        .ok ['1'], fun _ => .ok ⟨true, none, none⟩⟩ rfl
    simpa using this
  · exact init_retry_spec.2.2.2 ⟨[], 443, 1, none, 300, 300⟩
      ⟨.ok ⟨2, true⟩, .ok true, some ⟨99⟩, fun _ => false, .ok [], .error [],
        .ok ['1'], fun _ => .ok ⟨true, none, none⟩⟩
      [⟨['1'], 443, 1, ['a', 'g', 'e', 'n', 't'], none⟩] (by decide)

/-- The refresh certificate block emits one of three call traces. -/
theorem refreshCert_events (env : Env) (c : CertState) :
    (refreshCert env c).1 = [] ∨ (refreshCert env c).1 = [.keyGen] ∨
      (refreshCert env c).1 = [.keyGen, .certReq] := by
  unfold refreshCert
  split_ifs
  · rcases env.keyResult with e | k
    · simp
    · rcases env.certRequest with e2 | cs <;> simp
  · simp

/-- The address block emits one of two call traces. -/
theorem ipPhase_events (cfg : Config) (env : Env) :
    (ipPhase cfg env).1 = [] ∨ (ipPhase cfg env).1 = [.detectIp] := by
  unfold ipPhase
  split_ifs
  · rcases env.ipResult with e | ip <;> simp
  · simp

/-- No refresh cycle ever exits the process. -/
theorem exit_not_in_refreshCycle (cfg : Config) (env : Env) (c : CertState) (r : Route) :
    Event.exitProcess ∉ (refreshCycle cfg env c r).1 := by
  have hce : Event.exitProcess ∉ (refreshCert env c).1 := by
    rcases refreshCert_events env c with h | h | h <;> simp [h]
  have hie : Event.exitProcess ∉ (ipPhase cfg env).1 := by
    rcases ipPhase_events cfg env with h | h <;> simp [h]
  unfold refreshCycle
  cases hrc : refreshCert env c with
  | mk ce co =>
    rw [hrc] at hce
    simp only at hce
    cases co with
    | none => simp [hce]
    | some c' =>
      cases hip : ipPhase cfg env with
      | mk ie io =>
        rw [hip] at hie
        simp only at hie
        cases io with
        | none => simp [hce, hie]
        | some d =>
          dsimp only
          rcases hreg : env.registerResult (if d ≠ r.ip then { r with ip := d } else r)
              with e | res
          · simp [hce, hie]
          · dsimp only
            split_ifs <;> simp [hce, hie]

/-- C3: once Running, a step is total and always yields a Running state:
the refresh-cycle body's errors are caught — a failing certificate
renewal or a failing address detection logs the failure and the cycle
still completes — the loop proceeds to the next sleep/tick, never
terminates the process, and never returns to Initializing. -/
theorem running_swallow_spec :
    (∀ (cfg : Config) (env : Env) (c : CertState) (r : Route),
      ∃ c' r', step cfg env (.running c r)
        = (.running c' r', .sleep cfg.refreshInterval :: (refreshCycle cfg env c r).1)) ∧
    (∀ (cfg : Config) (env : Env) (c : CertState) (r : Route),
      Event.exitProcess ∉ (step cfg env (.running c r)).2) ∧
    (∀ (cfg : Config) (env : Env) (c : CertState) (r : Route),
      env.renewalDue c.expiresAt = true → (∃ e, env.keyResult = .error e) →
      Event.logFailure ∈ (refreshCycle cfg env c r).1 ∧
      (refreshCycle cfg env c r).2 = (c, r)) ∧
    (∀ (cfg : Config) (env : Env) (c : CertState) (r : Route),
      cfg.publicIp.isEmpty = true → (∃ e, env.ipResult = .error e) →
      Event.logFailure ∈ (refreshCycle cfg env c r).1) := by
  refine ⟨?_, ?_, ?_, ?_⟩
  · intro cfg env c r
    cases hR : refreshCycle cfg env c r with
    | mk tr p =>
      exact ⟨p.1, p.2, by simp [step, hR]⟩
  · intro cfg env c r
    cases hR : refreshCycle cfg env c r with
    | mk tr p =>
      have h := exit_not_in_refreshCycle cfg env c r
      rw [hR] at h
      simp only at h
      obtain ⟨c', r'⟩ := p
      simp [step, hR, h]
  · intro cfg env c r hdue hkey
    obtain ⟨e, he⟩ := hkey
    unfold refreshCycle refreshCert
    rw [hdue, he]
    simp
  · intro cfg env c r hpub hips
    obtain ⟨e, he⟩ := hips
    unfold refreshCycle
    cases hrc : refreshCert env c with
    | mk ce co =>
      cases co with
      | none => simp
      | some c' =>
        unfold ipPhase
        rw [hpub, he]
        simp

/-- Witness for C3: in a concrete running state, a renewal whose key
generation throws logs the failure and keeps the held state, and a
failing address detection logs the failure. -/
theorem running_swallow_spec_witness :
    (Event.logFailure ∈ (refreshCycle ⟨[], 443, 1, none, 300, 300⟩
      ⟨.ok ⟨2, true⟩, .ok true, none, fun _ => true, .error ['k'], .error [],
        .error ['d'], fun _ => .error ['r']⟩ ⟨5⟩ ⟨['1'], 443, 1, ['a'], none⟩).1 ∧
      (refreshCycle ⟨[], 443, 1, none, 300, 300⟩
        ⟨.ok ⟨2, true⟩, .ok true, none, fun _ => true, .error ['k'], .error [],
          .error ['d'], fun _ => .error ['r']⟩ ⟨5⟩ ⟨['1'], 443, 1, ['a'], none⟩).2
        = (⟨5⟩, ⟨['1'], 443, 1, ['a'], none⟩)) ∧
    Event.logFailure ∈ (refreshCycle ⟨[], 443, 1, none, 300, 300⟩
      ⟨.ok ⟨2, true⟩, .ok true, none, fun _ => false, .ok [], .error [],
        .error ['d'], fun _ => .error ['r']⟩ ⟨5⟩ ⟨['1'], 443, 1, ['a'], none⟩).1 :=
  ⟨running_swallow_spec.2.2.1 _ _ _ _ rfl ⟨['k'], rfl⟩,
   running_swallow_spec.2.2.2 ⟨[], 443, 1, none, 300, 300⟩
     ⟨.ok ⟨2, true⟩, .ok true, none, fun _ => false, .ok [], .error [],
       .error ['d'], fun _ => .error ['r']⟩ ⟨5⟩ ⟨['1'], 443, 1, ['a'], none⟩
     rfl ⟨['d'], rfl⟩⟩

/-- C9: in a refresh cycle whose certificate block succeeds and whose
detected address differs from the held route's ip, the resulting route is
the held route with only its ip replaced and the registration call of
that same cycle carries the updated route; and in every refresh cycle the
resulting route's port, priority, label and health check are exactly
those of the held route. -/
theorem refresh_ip_update_spec :
    (∀ (cfg : Config) (env : Env) (c c' : CertState) (r : Route) (d : List Char),
      (refreshCert env c).2 = some c' →
      cfg.publicIp.isEmpty = true → env.ipResult = .ok d → d ≠ r.ip →
      (refreshCycle cfg env c r).2.2 = { r with ip := d } ∧
      Event.register [{ r with ip := d }] ∈ (refreshCycle cfg env c r).1) ∧
    (∀ (cfg : Config) (env : Env) (c : CertState) (r : Route),
      (refreshCycle cfg env c r).2.2.port = r.port ∧
      (refreshCycle cfg env c r).2.2.priority = r.priority ∧
      (refreshCycle cfg env c r).2.2.label = r.label ∧
      (refreshCycle cfg env c r).2.2.healthCheck = r.healthCheck) := by
  constructor
  · intro cfg env c c' r d hcert hpub hip hne
    have hipeq : ipPhase cfg env = ([.detectIp], some d) := by
      unfold ipPhase
      rw [hpub, hip]
      simp
    unfold refreshCycle
    cases hrc : refreshCert env c with
    | mk ce co =>
      rw [hrc] at hcert
      simp only at hcert
      subst hcert
      rw [hipeq]
      dsimp only
      have hif : (if d ≠ r.ip then { r with ip := d } else r) = { r with ip := d } :=
        if_pos hne
      rw [hif]
      rcases hreg : env.registerResult { r with ip := d } with e | res
      · simp
      · dsimp only
        split_ifs <;> simp
  · intro cfg env c r
    unfold refreshCycle
    cases hrc : refreshCert env c with
    | mk ce co =>
      cases co with
      | none => simp
      | some c' =>
        cases hip : ipPhase cfg env with
        | mk ie io =>
          cases io with
          | none => simp
          | some d =>
            dsimp only
            by_cases hne : d ≠ r.ip
            · rw [if_pos hne]
              rcases hreg : env.registerResult { r with ip := d } with e | res
              · simp
              · dsimp only
                split_ifs <;> simp
            · rw [if_neg hne]
              rcases hreg : env.registerResult r with e | res
              · simp
              · dsimp only
                split_ifs <;> simp

/-- Witness for C9: with held route ip 1.1.1.1 and detected address
2.2.2.2, the cycle's resulting route is the held route with ip 2.2.2.2,
and the registration of that cycle carries the updated route. -/
theorem refresh_ip_update_spec_witness :
    (refreshCycle ⟨[], 443, 1, none, 300, 300⟩
      ⟨.ok ⟨2, true⟩, .ok true, none, fun _ => false, .ok [], .error [],
        .ok ['2', '.', '2', '.', '2', '.', '2'], fun _ => .ok ⟨true, none, none⟩⟩
      ⟨5⟩ ⟨['1', '.', '1', '.', '1', '.', '1'], 443, 1, ['a', 'g', 'e', 'n', 't'], none⟩).2.2
      = ⟨['2', '.', '2', '.', '2', '.', '2'], 443, 1, ['a', 'g', 'e', 'n', 't'], none⟩ ∧
    Event.register
        [⟨['2', '.', '2', '.', '2', '.', '2'], 443, 1, ['a', 'g', 'e', 'n', 't'], none⟩]
      ∈ (refreshCycle ⟨[], 443, 1, none, 300, 300⟩
        ⟨.ok ⟨2, true⟩, .ok true, none, fun _ => false, .ok [], .error [],
          .ok ['2', '.', '2', '.', '2', '.', '2'], fun _ => .ok ⟨true, none, none⟩⟩
        ⟨5⟩ ⟨['1', '.', '1', '.', '1', '.', '1'], 443, 1, ['a', 'g', 'e', 'n', 't'],
          none⟩).1 :=
  refresh_ip_update_spec.1 ⟨[], 443, 1, none, 300, 300⟩
    ⟨.ok ⟨2, true⟩, .ok true, none, fun _ => false, .ok [], .error [],
      .ok ['2', '.', '2', '.', '2', '.', '2'], fun _ => .ok ⟨true, none, none⟩⟩
    ⟨5⟩ ⟨5⟩ ⟨['1', '.', '1', '.', '1', '.', '1'], 443, 1, ['a', 'g', 'e', 'n', 't'], none⟩
    ['2', '.', '2', '.', '2', '.', '2'] rfl rfl rfl (by decide)

end Orchestrator

namespace CertManager

/-- C4: for every userId containing @, *, # or a non-ASCII character, the
CSR subject encodes the common name with the UTF8String tag — never the
PrintableString tag — and the encoded attribute round-trips through
encode/decode with the exact original userId recoverable from the parsed
subject. -/
theorem csr_utf8_roundtrip :
    ∀ userId : List Char,
      (∃ c ∈ userId, c = '@' ∨ c = '*' ∨ c = '#' ∨ 128 ≤ c.toNat) →
      ((csrSubject userId).headD ⟨[], [], 0⟩).valueTag = ASN1_UTF8STRING ∧
      ((csrSubject userId).headD ⟨[], [], 0⟩).valueTag ≠ ASN1_PRINTABLESTRING ∧
      decodeAttr (encodeAttr ((csrSubject userId).headD ⟨[], [], 0⟩))
        = some ⟨['c', 'o', 'm', 'm', 'o', 'n', 'N', 'a', 'm', 'e'], userId,
            ASN1_UTF8STRING⟩ := by
  intro userId _
  refine ⟨rfl, (by decide : (12 : Nat) ≠ 19), ?_⟩
  have hval : (userId.map Char.toNat).map Char.ofNat = userId := by
    rw [List.map_map]
    have hcomp : (Char.ofNat ∘ Char.toNat) = id := funext fun c => Char.ofNat_toNat c
    rw [hcomp, List.map_id]
  show decodeAttr (ASN1_UTF8STRING :: userId.length :: userId.map Char.toNat)
      = some ⟨['c', 'o', 'm', 'm', 'o', 'n', 'N', 'a', 'm', 'e'], userId, ASN1_UTF8STRING⟩
  simp only [decodeAttr]
  rw [if_pos (by simp), hval]

/-- Witness for C4: the CSR subjects for user@domain.com and for a
non-ASCII CJK userId both carry the UTF8String tag and round-trip to the
exact original string. -/
theorem csr_utf8_roundtrip_witness :
    decodeAttr (encodeAttr ((csrSubject
        ['u', 's', 'e', 'r', '@', 'd', 'o', 'm', 'a', 'i', 'n', '.', 'c', 'o', 'm']).headD
          ⟨[], [], 0⟩))
      = some ⟨['c', 'o', 'm', 'm', 'o', 'n', 'N', 'a', 'm', 'e'],
          ['u', 's', 'e', 'r', '@', 'd', 'o', 'm', 'a', 'i', 'n', '.', 'c', 'o', 'm'],
          ASN1_UTF8STRING⟩ ∧
    decodeAttr (encodeAttr ((csrSubject ['名', '前']).headD ⟨[], [], 0⟩))
      = some ⟨['c', 'o', 'm', 'm', 'o', 'n', 'N', 'a', 'm', 'e'], ['名', '前'],
          ASN1_UTF8STRING⟩ :=
  ⟨(csr_utf8_roundtrip
      ['u', 's', 'e', 'r', '@', 'd', 'o', 'm', 'a', 'i', 'n', '.', 'c', 'o', 'm']
      ⟨'@', by decide, Or.inl rfl⟩).2.2,
   (csr_utf8_roundtrip ['名', '前']
      ⟨'名', by decide, Or.inr (Or.inr (Or.inr (by decide)))⟩).2.2⟩

end CertManager

/-- C10: for every 16-byte buffer, formatIpv6 produces a string of exactly
8 colon-separated groups of 1-4 hex digits with no "::" compression, and
that string passes the IPv6 syntactic validation, so STUN-derived IPv6
route addresses preserve the Route ip validity invariant. -/
theorem formatIpv6_valid (bytes : List Nat) (_hlen : bytes.length = 16)
    (hb : ∀ x ∈ bytes, x < 256) :
    (IpValidation.splitColon (StunClient.formatIpv6 bytes)).length = 8 ∧
    (IpValidation.splitColon (StunClient.formatIpv6 bytes)).all
      IpValidation.isHexGroup = true ∧
    IpValidation.hasDC (StunClient.formatIpv6 bytes) = false ∧
    IpValidation.isValidIPv6 (StunClient.formatIpv6 bytes) = true := by
  have hgroup : ∀ g ∈ (List.range 8).map
      (fun i => StunClient.toHexString (StunClient.readUInt16BE bytes (2 * i))),
      IpValidation.isHexGroup g = true := by
    intro g hg
    obtain ⟨i, _, rfl⟩ := List.mem_map.mp hg
    set v := StunClient.readUInt16BE bytes (2 * i) with hv
    have hvlt : v < 65536 := by
      have h1 := getD_lt_256 bytes hb (2 * i)
      have h2 := getD_lt_256 bytes hb (2 * i + 1)
      rw [hv]
      unfold StunClient.readUInt16BE
      omega
    have hhex := StunClient.toHexString_all_hex v
    have hlen4 : (StunClient.toHexString v).length ≤ 4 :=
      StunClient.toHexString_len 4 v (by omega) (by norm_num; omega)
    have hne := StunClient.toHexString_ne_nil v
    simp [IpValidation.isHexGroup, hhex, hlen4, List.isEmpty_iff, hne]
  have hjoin : StunClient.formatIpv6 bytes = StrUtil.joinColon
      ((List.range 8).map
        (fun i => StunClient.toHexString (StunClient.readUInt16BE bytes (2 * i)))) := rfl
  have hnocolon : ∀ g ∈ (List.range 8).map
      (fun i => StunClient.toHexString (StunClient.readUInt16BE bytes (2 * i))),
      ':' ∉ g := fun g hg => IpValidation.isHexGroup_no_colon g (hgroup g hg)
  have hne : (List.range 8).map
      (fun i => StunClient.toHexString (StunClient.readUInt16BE bytes (2 * i))) ≠ [] := by
    simp [List.range_succ]
  have hsplit : IpValidation.splitColon (StunClient.formatIpv6 bytes)
      = (List.range 8).map
        (fun i => StunClient.toHexString (StunClient.readUInt16BE bytes (2 * i))) := by
    rw [hjoin]
    exact IpValidation.splitColon_join _ hnocolon hne
  have hlen8 : (IpValidation.splitColon (StunClient.formatIpv6 bytes)).length = 8 := by
    rw [hsplit]
    simp
  have hall : (IpValidation.splitColon (StunClient.formatIpv6 bytes)).all
      IpValidation.isHexGroup = true := by
    rw [hsplit, List.all_eq_true]
    exact hgroup
  have hcount : IpValidation.countDC (StunClient.formatIpv6 bytes) = 0 := by
    rw [hjoin]
    have hprops : ∀ g ∈ (List.range 8).map
        (fun i => StunClient.toHexString (StunClient.readUInt16BE bytes (2 * i))),
        g ≠ [] ∧ ':' ∉ g := fun g hg =>
      ⟨IpValidation.isHexGroup_ne_nil g (hgroup g hg), hnocolon g hg⟩
    have := IpValidation.countDC_join _ hprops []
    simpa using this
  have hdc : IpValidation.hasDC (StunClient.formatIpv6 bytes) = false := by
    by_contra hx
    have : IpValidation.hasDC (StunClient.formatIpv6 bytes) = true := by
      revert hx
      cases IpValidation.hasDC (StunClient.formatIpv6 bytes) <;> simp
    exact absurd (((IpValidation.hasDC_eq_countDC _).mp this)) (by simp [hcount])
  refine ⟨hlen8, hall, hdc, ?_⟩
  exact (IpValidation.isValidIPv6_no_dc _ hdc).mpr ⟨hlen8, hall⟩

/-- Witness for C10: the all-0xAB 16-byte buffer formats to a string of 8
hex groups that passes IPv6 validation. -/
theorem formatIpv6_valid_witness :
    (IpValidation.splitColon (StunClient.formatIpv6 (List.replicate 16 171))).length = 8 ∧
    (IpValidation.splitColon (StunClient.formatIpv6 (List.replicate 16 171))).all
      IpValidation.isHexGroup = true ∧
    IpValidation.hasDC (StunClient.formatIpv6 (List.replicate 16 171)) = false ∧
    IpValidation.isValidIPv6 (StunClient.formatIpv6 (List.replicate 16 171)) = true :=
  formatIpv6_valid (List.replicate 16 171) (by decide) (by decide)

